import Mathlib

/-!
# turnstile/script.js

A verification development for the screen-coordinate patch
`src/turnstile/script.js`:

```
const getRandomInt = (min, max) => Math.floor(Math.random() * (max - min + 1)) + min;
const screenCoords = { x: getRandomInt(800, 1200), y: getRandomInt(400, 600) };
Object.defineProperties(MouseEvent.prototype, {
    screenX: { value: screenCoords.x },
    screenY: { value: screenCoords.y }
});
```

The script is embedded over
* ECMAScript Number arithmetic (IEEE 754 binary64, round to nearest, ties to
  even), carried by exact rationals;
* the ordinary-object property operations the script and its readers use
  (`[[DefineOwnProperty]]`, `[[Get]]`, `[[Set]]`) on the two keys `screenX`
  and `screenY`;
* the evaluation of the file as a classic script (global declaration
  instantiation of its two `const` names, then its three statements).
-/

namespace Turnstile

/-! ## Number values -/

/-- Nearest integer to `x`; a tie goes to the even neighbour. -/
def roundHalfEven (x : ℚ) : ℤ :=
  if x - ⌊x⌋ < 1 / 2 then ⌊x⌋
  else if 1 / 2 < x - ⌊x⌋ then ⌊x⌋ + 1
  else if ⌊x⌋ % 2 = 0 then ⌊x⌋ else ⌊x⌋ + 1

/-- Binary exponent of the binade that holds `x`: `2 ^ e ≤ |x| < 2 ^ (e + 1)`,
clamped at `-1022` where the subnormal range (which holds zero) begins. -/
def exponent (x : ℚ) : ℤ := if x = 0 then -1022 else max (Int.log 2 |x|) (-1022)

/-- Spacing of the binary64 values in the binade of `x` (53 significant bits). -/
def ulp (x : ℚ) : ℚ := (2 : ℚ) ^ (exponent x - 52)

/-- The binary64 value nearest to the exact value `x` (ties to even), before
the overflow test. -/
def roundToDouble (x : ℚ) : ℚ := roundHalfEven (x / ulp x) * ulp x

/-- The rational `x` is exactly a finite binary64 value. -/
def IsDouble (x : ℚ) : Prop := roundToDouble x = x ∧ |x| < 2 ^ 1024

instance (x : ℚ) : Decidable (IsDouble x) := by
  unfold IsDouble
  infer_instance

/-- A value `Math.random()` may return: a finite double in `[0, 1)`. -/
def IsUnitDraw (r : ℚ) : Prop := IsDouble r ∧ 0 ≤ r ∧ r < 1

instance (r : ℚ) : Decidable (IsUnitDraw r) := by
  unfold IsUnitDraw
  infer_instance

/-- ECMAScript Number values.  A finite value is carried by its exact rational
value, so `+0` and `-0` are one value here (they are equal under `==` and
`===`, and no operation of the script tells them apart). -/
inductive JSNumber where
  | fin (q : ℚ)
  | inf (negative : Bool)
  | nan
deriving DecidableEq

namespace JSNumber

/-- The Number for the exact result `x` of an arithmetic operation: rounded to
the nearest double, and an infinity once the rounded magnitude reaches
`2 ^ 1024`. -/
def ofRat (x : ℚ) : JSNumber :=
  if (2 : ℚ) ^ 1024 ≤ |roundToDouble x| then inf (decide (x < 0))
  else fin (roundToDouble x)

/-- Unary minus. -/
def neg : JSNumber → JSNumber
  | fin a => fin (-a)
  | inf s => inf (!s)
  | nan => nan

/-- The `+` operator on Numbers. -/
def add : JSNumber → JSNumber → JSNumber
  | fin a, fin b => ofRat (a + b)
  | fin _, inf s => inf s
  | inf s, fin _ => inf s
  | inf s, inf t => if s = t then inf s else nan
  | nan, _ => nan
  | _, nan => nan

/-- The `-` operator on Numbers: `x - y` is `x + (-y)`. -/
def sub (x y : JSNumber) : JSNumber := add x (neg y)

/-- The `*` operator on Numbers. -/
def mul : JSNumber → JSNumber → JSNumber
  | fin a, fin b => ofRat (a * b)
  | fin a, inf s => if a = 0 then nan else inf (xor (decide (a < 0)) s)
  | inf s, fin b => if b = 0 then nan else inf (xor s (decide (b < 0)))
  | inf s, inf t => inf (xor s t)
  | nan, _ => nan
  | _, nan => nan

/-- The function `Math.floor`. -/
def floor : JSNumber → JSNumber
  | fin a => fin (⌊a⌋ : ℤ)
  | inf s => inf s
  | nan => nan

/-- The Number of an integer literal of the source (`1`, `800`, `1200`, ...). -/
def ofInt (n : ℤ) : JSNumber := ofRat n

end JSNumber

/-- A random source: every value it returns is a finite double in `[0, 1)`. -/
def IsRandomSource (random : ℕ → JSNumber) : Prop :=
  ∀ i, ∃ r : ℚ, random i = .fin r ∧ IsUnitDraw r

/-! ## The sampler -/

/-- Source line 6:
`const getRandomInt = (min, max) => Math.floor(Math.random() * (max - min + 1)) + min;`
with `random` the value the call `Math.random()` returns. -/
def getRandomInt (random min max : JSNumber) : JSNumber :=
  (JSNumber.floor (random.mul ((max.sub min).add (JSNumber.ofInt 1)))).add min

/-- The object `{ x, y }` bound to `screenCoords`. -/
structure ScreenCoords where
  x : JSNumber
  y : JSNumber
deriving DecidableEq

/-! ## Properties of `MouseEvent.prototype` and of mouse events -/

/-- The two property keys the script touches. -/
inductive Key where
  | screenX
  | screenY
deriving DecidableEq

/-- Language values that occur as property values here. -/
inductive JSValue where
  | undefined
  | number (n : JSNumber)
deriving DecidableEq

/-- A property of an object.  A data property holds a value; the accessor
property is the native one of the platform: its getter returns the internal
slot of the event it is called on and it has no setter (the attribute is
read-only). -/
inductive Property where
  | data (value : JSValue) (writable enumerable configurable : Bool)
  | accessor (slot : Key) (enumerable configurable : Bool)
deriving DecidableEq

/-- The `[[Configurable]]` attribute. -/
def Property.configurable : Property → Bool
  | .data _ _ _ c => c
  | .accessor _ _ c => c

/-- The `[[Enumerable]]` attribute. -/
def Property.enumerable : Property → Bool
  | .data _ _ e _ => e
  | .accessor _ e _ => e

/-- A property descriptor without `get`/`set`, every field optional: the record
`ToPropertyDescriptor` builds from an object literal such as `{ value: v }`. -/
structure PropertyDescriptor where
  value : Option JSValue
  writable : Option Bool
  enumerable : Option Bool
  configurable : Option Bool
deriving DecidableEq

/-- The coordinate that belongs to a key: `x` for `screenX`, `y` for `screenY`. -/
def ScreenCoords.get (c : ScreenCoords) : Key → JSNumber
  | .screenX => c.x
  | .screenY => c.y

/-- The descriptor of the literal `{ value: v }`: only `[[Value]]` is present. -/
def PropertyDescriptor.ofValue (v : JSNumber) : PropertyDescriptor :=
  ⟨some (.number v), none, none, none⟩

/-- `IsGenericDescriptor`: neither `[[Value]]` nor `[[Writable]]` is present. -/
def PropertyDescriptor.isGeneric (d : PropertyDescriptor) : Bool :=
  d.value.isNone && d.writable.isNone

/-- The own properties `screenX` and `screenY` of an object (absent: `none`). -/
structure PropertyTable where
  screenX : Option Property
  screenY : Option Property
deriving DecidableEq

/-- `[[GetOwnProperty]]`. -/
def PropertyTable.get (t : PropertyTable) : Key → Option Property
  | .screenX => t.screenX
  | .screenY => t.screenY

/-- Store property `p` under key `k`. -/
def PropertyTable.set (t : PropertyTable) (k : Key) (p : Property) : PropertyTable :=
  match k with
  | .screenX => { t with screenX := some p }
  | .screenY => { t with screenY := some p }

/-- Step 4 of `ValidateAndApplyPropertyDescriptor`: the existing property is
not configurable and the descriptor asks for a change it forbids. -/
def rejects (current : Property) (d : PropertyDescriptor) : Bool :=
  !current.configurable &&
    (d.configurable == some true
      || (match d.enumerable with
          | some e => e != current.enumerable
          | none => false)
      || (match current with
          | .accessor _ _ _ => !d.isGeneric
          | .data v w _ _ =>
            !w && (d.writable == some true
              || (match d.value with
                  | some v2 => v2 != v
                  | none => false))))

/-- Step 5 of `ValidateAndApplyPropertyDescriptor`: the property after the
descriptor is applied.  Fields absent from the descriptor keep the existing
attribute; when an accessor becomes a data property the absent `[[Value]]` and
`[[Writable]]` take their defaults. -/
def applyDescriptor (current : Property) (d : PropertyDescriptor) : Property :=
  match current with
  | .accessor s e c =>
    if d.isGeneric then .accessor s (d.enumerable.getD e) (d.configurable.getD c)
    else .data (d.value.getD .undefined) (d.writable.getD false)
      (d.enumerable.getD e) (d.configurable.getD c)
  | .data v w e c =>
    .data (d.value.getD v) (d.writable.getD w) (d.enumerable.getD e) (d.configurable.getD c)

/-- `ValidateAndApplyPropertyDescriptor` on an extensible ordinary object:
`none` when the definition is rejected, otherwise the property that results.
A property that does not exist yet is created with every absent attribute
`false`. -/
def validateAndApply (current : Option Property) (d : PropertyDescriptor) : Option Property :=
  match current with
  | none =>
    some (.data (d.value.getD .undefined) (d.writable.getD false)
      (d.enumerable.getD false) (d.configurable.getD false))
  | some p => if rejects p d then none else some (applyDescriptor p d)

/-- Errors a script can raise here. -/
inductive JSError where
  | syntaxError
  | typeError
deriving DecidableEq

/-- `DefinePropertyOrThrow`: a rejected definition is a `TypeError`. -/
def definePropertyOrThrow (t : PropertyTable) (k : Key) (d : PropertyDescriptor) :
    Except JSError PropertyTable :=
  match validateAndApply (t.get k) d with
  | none => .error .typeError
  | some p => .ok (t.set k p)

/-- `Object.defineProperties`: the collected descriptors are defined one after
the other; the first rejected one throws, and what was defined before it
stays.  Returns the completion (`none`: normal) and the table reached. -/
def defineProperties (t : PropertyTable) :
    List (Key × PropertyDescriptor) → Option JSError × PropertyTable
  | [] => (none, t)
  | (k, d) :: rest =>
    match definePropertyOrThrow t k d with
    | .error e => (some e, t)
    | .ok t1 => defineProperties t1 rest

/-- A mouse-type event object: the internal slots its constructor (or the
platform, for a native event) filled in, and its own properties under the two
keys.  The attributes `screenX`/`screenY` live on the prototype, so a newly
created event has no own property under either key. -/
structure MouseEvent where
  slotX : JSNumber
  slotY : JSNumber
  own : PropertyTable
deriving DecidableEq

/-- The event `new MouseEvent(type, { screenX: x, screenY: y })`; a native
dispatch creates the same object with the true pointer position. -/
def MouseEvent.create (x y : JSNumber) : MouseEvent := ⟨x, y, ⟨none, none⟩⟩

/-- A copy of an event made by constructing one from its fields. -/
def MouseEvent.clone (e : MouseEvent) : MouseEvent := MouseEvent.create e.slotX e.slotY

/-- The internal slot behind a key. -/
def MouseEvent.slot (e : MouseEvent) : Key → JSNumber
  | .screenX => e.slotX
  | .screenY => e.slotY

/-- The value a property yields for receiver `e`. -/
def Property.read (p : Property) (e : MouseEvent) : JSValue :=
  match p with
  | .data v _ _ _ => v
  | .accessor s _ _ => .number (e.slot s)

/-- Reading `e.screenX` / `e.screenY` (`[[Get]]`): the own property if there is
one, otherwise the one of `MouseEvent.prototype`; the prototypes further up
(`UIEvent`, `Event`, `Object`) have neither key. -/
def getProperty (prototype : PropertyTable) (e : MouseEvent) (k : Key) : JSValue :=
  match e.own.get k with
  | some p => p.read e
  | none =>
    match prototype.get k with
    | some p => p.read e
    | none => .undefined

/-- The assignment `e.key = v` (`[[Set]]` with receiver `e`), giving the event
afterwards.  An own or inherited property that is an accessor (no setter) or a
non-writable data property makes the assignment fail and nothing changes; an
own writable data property takes the value; otherwise a new own data property
is created. -/
def assignEvent (prototype : PropertyTable) (e : MouseEvent) (k : Key) (v : JSValue) :
    MouseEvent :=
  match e.own.get k with
  | some (.data _ true en c) => { e with own := e.own.set k (.data v true en c) }
  | some _ => e
  | none =>
    match prototype.get k with
    | some (.data _ true _ _) => { e with own := e.own.set k (.data v true true true) }
    | some _ => e
    | none => { e with own := e.own.set k (.data v true true true) }

/-- The assignment `MouseEvent.prototype.key = v`, giving the prototype's table
afterwards. -/
def assignPrototype (prototype : PropertyTable) (k : Key) (v : JSValue) : PropertyTable :=
  match prototype.get k with
  | some (.data _ true en c) => prototype.set k (.data v true en c)
  | some _ => prototype
  | none => prototype.set k (.data v true true true)

/-- The properties `screenX` and `screenY` of `MouseEvent.prototype` as the
platform defines them: enumerable, configurable accessors without a setter. -/
def nativePrototype : PropertyTable :=
  ⟨some (.accessor .screenX true true), some (.accessor .screenY true true)⟩

/-! ## The execution context and the script -/

/-- The state of one execution context, as far as the script can see or change
it: the values `Math.random()` is going to return and how many of them have
been consumed, the names declared in the global lexical scope, and the two
properties of `MouseEvent.prototype`. -/
structure Realm where
  random : ℕ → JSNumber
  drawn : ℕ
  declared : List String
  prototype : PropertyTable

/-- The call `Math.random()`: the next value of the source. -/
def mathRandom (realm : Realm) : JSNumber × Realm :=
  (realm.random realm.drawn, { realm with drawn := realm.drawn + 1 })

/-- Source lines 8-11: the object literal evaluates `getRandomInt(800, 1200)`
and then `getRandomInt(400, 600)`, each calling `Math.random()` once. -/
def sampleScreenCoords (realm : Realm) : ScreenCoords × Realm :=
  let (r1, realm1) := mathRandom realm
  let x := getRandomInt r1 (JSNumber.ofInt 800) (JSNumber.ofInt 1200)
  let (r2, realm2) := mathRandom realm1
  let y := getRandomInt r2 (JSNumber.ofInt 400) (JSNumber.ofInt 600)
  (⟨x, y⟩, realm2)

/-- Source lines 13-16: the install step,
`Object.defineProperties(MouseEvent.prototype, { screenX: { value: c.x }, screenY: { value: c.y } })`. -/
def install (c : ScreenCoords) (realm : Realm) : Option JSError × Realm :=
  let (completion, table) := defineProperties realm.prototype
    [(.screenX, PropertyDescriptor.ofValue c.x), (.screenY, PropertyDescriptor.ofValue c.y)]
  (completion, { realm with prototype := table })

/-- The statements of the script in order: sample the pair, then install it. -/
def runStatements (realm : Realm) : Option JSError × Realm :=
  let (c, realm1) := sampleScreenCoords realm
  install c realm1

/-- The names the script declares with `const` at top level. -/
def scriptNames : List String := ["getRandomInt", "screenCoords"]

/-- Evaluation of the file as a classic script.  Global declaration
instantiation comes first: when one of the script's `const` names is already
declared in the global lexical scope the script is rejected with a
`SyntaxError` and none of its statements runs.  Otherwise the names are
declared and the statements run. -/
def evalScript (realm : Realm) : Option JSError × Realm :=
  if scriptNames.any (fun n => realm.declared.contains n) then (some .syntaxError, realm)
  else runStatements { realm with declared := scriptNames ++ realm.declared }

/-! ## Code that runs in the context afterwards -/

/-- A step of later code in the context. -/
inductive Action where
  | construct (x y : JSNumber)
  | clone (event : ℕ)
  | read (event : ℕ) (key : Key)
  | assignEvent (event : ℕ) (key : Key) (v : JSValue)
  | assignPrototype (key : Key) (v : JSValue)
  | definePrototype (key : Key) (d : PropertyDescriptor)

/-- The context together with the mouse events created so far and what the
reads returned (key and value), latest first. -/
structure Page where
  realm : Realm
  events : List MouseEvent
  observed : List (Key × JSValue)

/-- One step of later code.  A step that names an event that does not exist,
or a definition that is rejected, changes nothing. -/
def Page.step (p : Page) : Action → Page
  | .construct x y => { p with events := p.events ++ [MouseEvent.create x y] }
  | .clone i =>
    match p.events.get? i with
    | some e => { p with events := p.events ++ [e.clone] }
    | none => p
  | .read i k =>
    match p.events.get? i with
    | some e => { p with observed := (k, getProperty p.realm.prototype e k) :: p.observed }
    | none => p
  | .assignEvent i k v =>
    match p.events.get? i with
    | some e => { p with events := p.events.set i (assignEvent p.realm.prototype e k v) }
    | none => p
  | .assignPrototype k v =>
    { p with realm := { p.realm with prototype := assignPrototype p.realm.prototype k v } }
  | .definePrototype k d =>
    match definePropertyOrThrow p.realm.prototype k d with
    | .ok t => { p with realm := { p.realm with prototype := t } }
    | .error _ => p

/-- Run a sequence of steps. -/
def Page.run (p : Page) (actions : List Action) : Page := actions.foldl Page.step p

/-- The page right after the script: no mouse event created yet, nothing read. -/
def Page.start (realm : Realm) : Page := ⟨realm, [], []⟩

/-- Steps that only create events and read them. -/
def Action.isObservation : Action → Bool
  | .construct _ _ => true
  | .clone _ => true
  | .read _ _ => true
  | _ => false

/-- Steps that define a property on the prototype. -/
def Action.isDefinition : Action → Bool
  | .definePrototype _ _ => true
  | _ => false

/-- The table holds data properties with the values of `c` under both keys. -/
def Installed (c : ScreenCoords) (t : PropertyTable) : Prop :=
  ∀ k, ∃ w e cf, t.get k = some (.data (.number (c.get k)) w e cf)

/-- The table holds non-writable data properties with the values of `c` under
both keys. -/
def InstalledReadOnly (c : ScreenCoords) (t : PropertyTable) : Prop :=
  ∀ k, ∃ e cf, t.get k = some (.data (.number (c.get k)) false e cf)

/-- No mouse event of the page has an own property under either key, and every
read so far returned the coordinate of `c` for its key. -/
def Page.Consistent (c : ScreenCoords) (p : Page) : Prop :=
  (∀ ev ∈ p.events, ev.own = ⟨none, none⟩) ∧ (∀ o ∈ p.observed, o.2 = .number (c.get o.1))

/-! ## Concrete contexts -/

/-- A context in which the script has not run: nothing drawn, no name declared,
the platform's accessors on the prototype. -/
def Realm.initial (random : ℕ → JSNumber) : Realm := ⟨random, 0, [], nativePrototype⟩

/-- A context whose `MouseEvent.prototype` has neither property yet (a host
without the native attributes), so that a definition creates them. -/
def Realm.bare (random : ℕ → JSNumber) : Realm := ⟨random, 0, [], ⟨none, none⟩⟩

/-- The source that returns the same Number on every call. -/
def constantSource (r : JSNumber) : ℕ → JSNumber := fun _ => r


/-! ## Rounding to the nearest integer -/

theorem roundHalfEven_intCast (z : ℤ) : roundHalfEven (z : ℚ) = z := by
  simp [roundHalfEven]

theorem floor_le_roundHalfEven (x : ℚ) : ⌊x⌋ ≤ roundHalfEven x := by
  unfold roundHalfEven
  split_ifs <;> omega

theorem roundHalfEven_le_floor_add_one (x : ℚ) : roundHalfEven x ≤ ⌊x⌋ + 1 := by
  unfold roundHalfEven
  split_ifs <;> omega

theorem roundHalfEven_le_add_half (x : ℚ) : (roundHalfEven x : ℚ) ≤ x + 1 / 2 := by
  have h1 := Int.floor_le x
  unfold roundHalfEven
  split_ifs <;> push_cast <;> linarith

theorem sub_half_le_roundHalfEven (x : ℚ) : x - 1 / 2 ≤ (roundHalfEven x : ℚ) := by
  have h2 := Int.lt_floor_add_one x
  unfold roundHalfEven
  split_ifs <;> push_cast <;> linarith

theorem roundHalfEven_mono {x y : ℚ} (h : x ≤ y) : roundHalfEven x ≤ roundHalfEven y := by
  have hf : ⌊x⌋ ≤ ⌊y⌋ := Int.floor_mono h
  rcases hf.lt_or_eq with hlt | heq
  · have h1 := roundHalfEven_le_floor_add_one x
    have h2 := floor_le_roundHalfEven y
    omega
  · unfold roundHalfEven
    rw [heq]
    split_ifs <;> first | omega | (exfalso; linarith)

theorem roundHalfEven_nonneg {x : ℚ} (h : 0 ≤ x) : 0 ≤ roundHalfEven x := by
  have h1 := roundHalfEven_mono h
  rwa [show ((0 : ℚ)) = ((0 : ℤ) : ℚ) by norm_num, roundHalfEven_intCast] at h1

/-- An exact value strictly below `n - 1/2` rounds to an integer below `n`. -/
theorem roundHalfEven_lt_of_lt_sub_half {x : ℚ} {n : ℤ} (h : x < n - 1 / 2) :
    roundHalfEven x < n := by
  have h1 := roundHalfEven_le_add_half x
  have h2 : (roundHalfEven x : ℚ) < n := by linarith
  exact_mod_cast h2

/-! ## Binades -/

theorem two_zpow_pos (e : ℤ) : (0 : ℚ) < 2 ^ e := zpow_pos (by norm_num) e

theorem ulp_pos (x : ℚ) : 0 < ulp x := two_zpow_pos _

theorem exponent_ge (x : ℚ) : -1022 ≤ exponent x := by
  unfold exponent
  split_ifs
  · exact le_refl _
  · exact le_max_right _ _

theorem log_le_exponent {x : ℚ} (hx : x ≠ 0) : Int.log 2 |x| ≤ exponent x := by
  unfold exponent
  rw [if_neg hx]
  exact le_max_left _ _

theorem abs_lt_two_zpow_exponent (x : ℚ) : |x| < 2 ^ (exponent x + 1) := by
  rcases eq_or_ne x 0 with h0 | h0
  · subst h0
    simpa using two_zpow_pos (exponent 0 + 1)
  · have h := Int.lt_zpow_succ_log_self (b := 2) (by norm_num) |x|
    have h2 : ((2 : ℕ) : ℚ) = 2 := by norm_num
    rw [h2] at h
    have h3 : Int.log 2 |x| + 1 ≤ exponent x + 1 := by
      have := log_le_exponent h0
      omega
    exact lt_of_lt_of_le h (zpow_le_zpow_right₀ (by norm_num) h3)

/-- Above the subnormal range the binade's lower end is below the value. -/
theorem two_zpow_exponent_le {x : ℚ} (h : -1022 < exponent x) : 2 ^ exponent x ≤ |x| := by
  have h0 : x ≠ 0 := by
    rintro rfl
    simp [exponent] at h
  have he : exponent x = Int.log 2 |x| := by
    unfold exponent at h ⊢
    rw [if_neg h0] at h ⊢
    rcases le_total (Int.log 2 |x|) (-1022) with h1 | h1
    · rw [max_eq_right h1] at h
      omega
    · exact max_eq_left h1
  have hx : 0 < |x| := abs_pos.mpr h0
  have := Int.zpow_log_le_self (b := 2) (by norm_num) hx
  have h2 : ((2 : ℕ) : ℚ) = 2 := by norm_num
  rw [h2] at this
  rw [he]
  exact this

theorem exponent_le_of_abs_lt {x : ℚ} {e : ℤ} (h : |x| < 2 ^ (e + 1)) (he : -1022 ≤ e) :
    exponent x ≤ e := by
  unfold exponent
  split_ifs with h0
  · exact he
  · apply max_le _ he
    have hx : 0 < |x| := abs_pos.mpr h0
    have h2 : ((2 : ℕ) : ℚ) = 2 := by norm_num
    have := (Int.lt_zpow_iff_log_lt (b := 2) (by norm_num) (x := e + 1) hx).mp (by rw [h2]; exact h)
    omega

theorem exponent_eq {x : ℚ} {e : ℤ} (h1 : 2 ^ e ≤ |x|) (h2 : |x| < 2 ^ (e + 1))
    (he : -1022 ≤ e) : exponent x = e := by
  apply le_antisymm (exponent_le_of_abs_lt h2 he)
  have hx : 0 < |x| := lt_of_lt_of_le (two_zpow_pos e) h1
  have h3 : ((2 : ℕ) : ℚ) = 2 := by norm_num
  have := (Int.zpow_le_iff_le_log (b := 2) (by norm_num) (x := e) hx).mp (by rw [h3]; exact h1)
  exact le_trans this (log_le_exponent (abs_pos.mp hx))

/-! ## Rounding to binary64 -/

theorem roundToDouble_zero : roundToDouble 0 = 0 := by
  simp [roundToDouble, roundHalfEven]

theorem roundToDouble_nonneg {x : ℚ} (h : 0 ≤ x) : 0 ≤ roundToDouble x := by
  unfold roundToDouble
  have h1 : 0 ≤ x / ulp x := div_nonneg h (le_of_lt (ulp_pos x))
  have h2 : (0 : ℚ) ≤ roundHalfEven (x / ulp x) := by exact_mod_cast roundHalfEven_nonneg h1
  exact mul_nonneg h2 (le_of_lt (ulp_pos x))

/-- A value `M * 2 ^ s` with `|M| < 2 ^ 53` and `s` no lower than the subnormal
exponent is a fixed point of the rounding. -/
theorem roundToDouble_dyadic (M s : ℤ) (hM : |M| < 2 ^ 53) (hs : -1074 ≤ s) :
    roundToDouble ((M : ℚ) * 2 ^ s) = (M : ℚ) * 2 ^ s := by
  have hlt : |(M : ℚ) * 2 ^ s| < 2 ^ ((52 + s) + 1) := by
    rw [abs_mul, abs_of_pos (two_zpow_pos s)]
    have h1 : |(M : ℚ)| < 2 ^ (53 : ℤ) := by
      have : ((|M| : ℤ) : ℚ) < ((2 ^ 53 : ℤ) : ℚ) := by exact_mod_cast hM
      rw [Int.cast_abs] at this
      norm_num at this ⊢
      exact this
    have h2 : (2 : ℚ) ^ ((52 + s) + 1) = 2 ^ (53 : ℤ) * 2 ^ s := by
      rw [← zpow_add₀ (by norm_num)]
      congr 1
      ring
    rw [h2]
    exact mul_lt_mul_of_pos_right h1 (two_zpow_pos s)
  have hE : exponent ((M : ℚ) * 2 ^ s) ≤ 52 + s := exponent_le_of_abs_lt hlt (by omega)
  obtain ⟨k, hk⟩ : ∃ k : ℕ, (k : ℤ) = s + 52 - exponent ((M : ℚ) * 2 ^ s) :=
    ⟨(s + 52 - exponent ((M : ℚ) * 2 ^ s)).toNat, by omega⟩
  have hdiv : (M : ℚ) * 2 ^ s / ulp ((M : ℚ) * 2 ^ s) = ((M * 2 ^ k : ℤ) : ℚ) := by
    unfold ulp
    rw [div_eq_iff (ne_of_gt (two_zpow_pos _))]
    push_cast
    rw [mul_assoc, ← zpow_natCast, hk, ← zpow_add₀ (by norm_num)]
    congr 2
    ring
  unfold roundToDouble
  rw [hdiv, roundHalfEven_intCast, ← hdiv, div_mul_cancel₀ _ (ne_of_gt (ulp_pos _))]

theorem roundToDouble_intCast (z : ℤ) (h : |z| ≤ 2 ^ 53) : roundToDouble (z : ℚ) = z := by
  rcases lt_or_eq_of_le h with h1 | h1
  · have := roundToDouble_dyadic z 0 h1 (by norm_num)
    simpa using this
  · have h2 : (z : ℚ) = ((z / 2 : ℤ) : ℚ) * 2 ^ (1 : ℤ) := by
      have : z = z / 2 * 2 := by
        rcases abs_cases z with ⟨ha, _⟩ | ⟨ha, _⟩ <;> omega
      conv_lhs => rw [this]
      push_cast
      norm_num
    rw [h2]
    apply roundToDouble_dyadic
    · rcases abs_cases z with ⟨ha, _⟩ | ⟨ha, _⟩ <;> rcases abs_cases (z / 2) with ⟨hb, _⟩ | ⟨hb, _⟩ <;> omega
    · norm_num

theorem isDouble_intCast (z : ℤ) (h : |z| ≤ 2 ^ 53) : IsDouble (z : ℚ) := by
  refine ⟨roundToDouble_intCast z h, ?_⟩
  have h1 : ((|z| : ℤ) : ℚ) ≤ ((2 ^ 53 : ℤ) : ℚ) := by exact_mod_cast h
  rw [Int.cast_abs] at h1
  have h2 : ((2 ^ 53 : ℤ) : ℚ) < 2 ^ 1024 := by norm_num
  exact lt_of_le_of_lt h1 h2

theorem roundHalfEven_le_of_le_int {x : ℚ} {n : ℤ} (h : x ≤ n) : roundHalfEven x ≤ n := by
  have := roundHalfEven_mono h
  rwa [roundHalfEven_intCast] at this

theorem le_roundHalfEven_of_int_le {x : ℚ} {n : ℤ} (h : (n : ℚ) ≤ x) : n ≤ roundHalfEven x := by
  have := roundHalfEven_mono h
  rwa [roundHalfEven_intCast] at this

theorem two_pow_mul_ulp (x : ℚ) (k : ℕ) : (2 : ℚ) ^ k * ulp x = 2 ^ (exponent x - 52 + k) := by
  unfold ulp
  rw [← zpow_natCast, ← zpow_add₀ (by norm_num)]
  congr 1
  ring

theorem roundToDouble_le_two_zpow {x : ℚ} (hx : 0 ≤ x) :
    roundToDouble x ≤ 2 ^ (exponent x + 1) := by
  have e2 : (2 : ℚ) ^ (exponent x + 1) = (2 : ℚ) ^ 53 * ulp x := by
    rw [two_pow_mul_ulp]
    congr 1
    push_cast
    ring
  have hb : x / ulp x ≤ (((2 : ℤ) ^ 53 : ℤ) : ℚ) := by
    rw [div_le_iff₀ (ulp_pos x), Int.cast_pow, Int.cast_ofNat, ← e2]
    have := abs_lt_two_zpow_exponent x
    rw [abs_of_nonneg hx] at this
    exact le_of_lt this
  have hr2 : (roundHalfEven (x / ulp x) : ℚ) ≤ (((2 : ℤ) ^ 53 : ℤ) : ℚ) := by
    exact_mod_cast roundHalfEven_le_of_le_int hb
  unfold roundToDouble
  rw [e2]
  rw [Int.cast_pow, Int.cast_ofNat] at hr2
  exact mul_le_mul_of_nonneg_right hr2 (le_of_lt (ulp_pos x))

theorem two_zpow_le_roundToDouble {y : ℚ} (hy : 0 ≤ y) (he : -1022 < exponent y) :
    2 ^ exponent y ≤ roundToDouble y := by
  have e2 : (2 : ℚ) ^ exponent y = (2 : ℚ) ^ 52 * ulp y := by
    rw [two_pow_mul_ulp]
    congr 1
    push_cast
    ring
  have hlow : (2 : ℚ) ^ exponent y ≤ y := by
    have := two_zpow_exponent_le he
    rwa [abs_of_nonneg hy] at this
  have hb : (((2 : ℤ) ^ 52 : ℤ) : ℚ) ≤ y / ulp y := by
    rw [le_div_iff₀ (ulp_pos y), Int.cast_pow, Int.cast_ofNat, ← e2]
    exact hlow
  have hr2 : (((2 : ℤ) ^ 52 : ℤ) : ℚ) ≤ (roundHalfEven (y / ulp y) : ℚ) := by
    exact_mod_cast le_roundHalfEven_of_int_le hb
  unfold roundToDouble
  rw [e2]
  rw [Int.cast_pow, Int.cast_ofNat] at hr2
  exact mul_le_mul_of_nonneg_right hr2 (le_of_lt (ulp_pos y))

/-- Rounding keeps the order of nonnegative exact values. -/
theorem roundToDouble_mono {x y : ℚ} (hx : 0 ≤ x) (h : x ≤ y) :
    roundToDouble x ≤ roundToDouble y := by
  have hy : 0 ≤ y := le_trans hx h
  have hxy : |x| ≤ |y| := by rwa [abs_of_nonneg hx, abs_of_nonneg hy]
  have hexp : exponent x ≤ exponent y :=
    exponent_le_of_abs_lt (lt_of_le_of_lt hxy (abs_lt_two_zpow_exponent y)) (exponent_ge y)
  rcases hexp.lt_or_eq with hlt | heq
  · have h1 := roundToDouble_le_two_zpow hx
    have h2 := two_zpow_le_roundToDouble hy (by have := exponent_ge x; omega)
    have h3 : (2 : ℚ) ^ (exponent x + 1) ≤ 2 ^ exponent y :=
      zpow_le_zpow_right₀ (by norm_num) (by omega)
    linarith
  · have hu : ulp x = ulp y := by unfold ulp; rw [heq]
    unfold roundToDouble
    rw [hu]
    have hd : x / ulp y ≤ y / ulp y := div_le_div_of_nonneg_right h (le_of_lt (ulp_pos y))
    have hr : (roundHalfEven (x / ulp y) : ℚ) ≤ roundHalfEven (y / ulp y) := by
      exact_mod_cast roundHalfEven_mono hd
    exact mul_le_mul_of_nonneg_right hr (le_of_lt (ulp_pos y))

/-- A nonnegative exact value no larger than `K * (1 - 2 ^ (-53))`, with `K` an
integer in `[1, 2 ^ 53]`, rounds to a double strictly below `K`. -/
theorem roundToDouble_lt_int {y : ℚ} {K : ℤ} (hy : 0 ≤ y) (hK1 : 1 ≤ K) (hK : K ≤ 2 ^ 53)
    (h : y ≤ K * (1 - 1 / 2 ^ 53)) : roundToDouble y < K := by
  have hu := ulp_pos y
  have hKq : (1 : ℚ) ≤ K := by exact_mod_cast hK1
  have hKq2 : (K : ℚ) ≤ 2 ^ 53 := by exact_mod_cast hK
  have hyK : y < K := by
    have : (K : ℚ) * (1 - 1 / 2 ^ 53) < K := by
      have : (0 : ℚ) < K * (1 / 2 ^ 53) := by positivity
      linarith
    linarith
  have hE : exponent y ≤ 52 := by
    apply exponent_le_of_abs_lt _ (by norm_num)
    rw [abs_of_nonneg hy]
    have : (2 : ℚ) ^ ((52 : ℤ) + 1) = 2 ^ 53 := by norm_num
    rw [this]
    linarith
  have h2E : (2 : ℚ) ^ exponent y < K := by
    rcases (exponent_ge y).lt_or_eq with h1 | h1
    · have := two_zpow_exponent_le h1
      rw [abs_of_nonneg hy] at this
      linarith
    · rw [← h1]
      have : (2 : ℚ) ^ (-1022 : ℤ) < 2 ^ (0 : ℤ) := zpow_lt_zpow_right₀ (by norm_num) (by norm_num)
      rw [zpow_zero] at this
      linarith
  obtain ⟨k, hk⟩ : ∃ k : ℕ, (k : ℤ) = 52 - exponent y := ⟨(52 - exponent y).toNat, by omega⟩
  have hN : ((K * 2 ^ k : ℤ) : ℚ) = K / ulp y := by
    unfold ulp
    rw [eq_div_iff (ne_of_gt (two_zpow_pos _))]
    push_cast
    rw [mul_assoc, ← zpow_natCast, hk, ← zpow_add₀ (by norm_num)]
    have : (52 - exponent y + (exponent y - 52)) = 0 := by ring
    rw [this, zpow_zero, mul_one]
  have hul : ulp y = 2 ^ exponent y / 2 ^ 52 := by
    unfold ulp
    rw [zpow_sub₀ (by norm_num)]
    norm_num
  have hlt : y / ulp y < ((K * 2 ^ k : ℤ) : ℚ) - 1 / 2 := by
    rw [hN, div_lt_iff₀ hu]
    have e : ((K : ℚ) / ulp y - 1 / 2) * ulp y = K - ulp y / 2 := by
      field_simp
      ring
    rw [e, hul]
    have h3 : (2 : ℚ) ^ exponent y / 2 ^ 52 / 2 < K * (1 / 2 ^ 53) := by
      have : (2 : ℚ) ^ exponent y / 2 ^ 52 / 2 = 2 ^ exponent y * (1 / 2 ^ 53) := by
        ring
      rw [this]
      exact mul_lt_mul_of_pos_right h2E (by positivity)
    linarith
  have hr := roundHalfEven_lt_of_lt_sub_half hlt
  have hr2 : (roundHalfEven (y / ulp y) : ℚ) ≤ K / ulp y - 1 := by
    rw [← hN]
    have : roundHalfEven (y / ulp y) ≤ K * 2 ^ k - 1 := by omega
    exact_mod_cast this
  unfold roundToDouble
  have h4 : (roundHalfEven (y / ulp y) : ℚ) * ulp y ≤ (K / ulp y - 1) * ulp y :=
    mul_le_mul_of_nonneg_right hr2 (le_of_lt hu)
  have e5 : ((K : ℚ) / ulp y - 1) * ulp y = K - ulp y := by
    field_simp
  rw [e5] at h4
  linarith

/-- The largest value `Math.random()` can return is `1 - 2 ^ (-53)`. -/
theorem unitDraw_le {r : ℚ} (h : IsUnitDraw r) : r ≤ 1 - 1 / 2 ^ 53 := by
  obtain ⟨⟨hfix, _⟩, h0, h1⟩ := h
  rcases lt_or_le r (1 / 2) with hlt | hge
  · have : (1 : ℚ) / 2 ≤ 1 - 1 / 2 ^ 53 := by norm_num
    linarith
  · have hexp : exponent r = -1 := by
      apply exponent_eq
      · rw [abs_of_nonneg h0]
        norm_num
        linarith
      · rw [abs_of_nonneg h0]
        norm_num
        exact h1
      · norm_num
    have hu : ulp r = 1 / 2 ^ 53 := by
      unfold ulp
      rw [hexp]
      norm_num
    unfold roundToDouble at hfix
    rw [hu] at hfix
    have hm : (roundHalfEven (r / (1 / 2 ^ 53)) : ℚ) < ((2 ^ 53 : ℤ) : ℚ) := by
      have : (roundHalfEven (r / (1 / 2 ^ 53)) : ℚ) * (1 / 2 ^ 53) < 1 := by rw [hfix]; exact h1
      push_cast
      have h53 : (0 : ℚ) < 2 ^ 53 := by positivity
      rw [mul_one_div, div_lt_one h53] at this
      exact this
    have hm2 : roundHalfEven (r / (1 / 2 ^ 53)) ≤ 2 ^ 53 - 1 := by
      have : roundHalfEven (r / (1 / 2 ^ 53)) < 2 ^ 53 := by exact_mod_cast hm
      omega
    have hm3 : (roundHalfEven (r / (1 / 2 ^ 53)) : ℚ) ≤ 2 ^ 53 - 1 := by exact_mod_cast hm2
    rw [← hfix]
    have : ((2 : ℚ) ^ 53 - 1) * (1 / 2 ^ 53) = 1 - 1 / 2 ^ 53 := by norm_num
    rw [← this]
    exact mul_le_mul_of_nonneg_right hm3 (by positivity)

/-! ## Number operations on exactly representable operands -/

theorem ofRat_of_isDouble {x : ℚ} (h : IsDouble x) : JSNumber.ofRat x = .fin x := by
  unfold JSNumber.ofRat
  rw [h.1, if_neg (not_le.mpr h.2)]

theorem ofRat_intCast (z : ℤ) (h : |z| ≤ 2 ^ 53) : JSNumber.ofRat (z : ℚ) = .fin z :=
  ofRat_of_isDouble (isDouble_intCast z h)

theorem ofInt_eq (z : ℤ) (h : |z| ≤ 2 ^ 53) : JSNumber.ofInt z = .fin z :=
  ofRat_intCast z h

theorem add_fin_int (a b : ℤ) (h : |a + b| ≤ 2 ^ 53) :
    JSNumber.add (.fin a) (.fin b) = .fin ((a + b : ℤ) : ℚ) := by
  have := ofRat_intCast (a + b) h
  rw [Int.cast_add] at this
  simpa [JSNumber.add] using this

theorem sub_fin_int (a b : ℤ) (h : |a - b| ≤ 2 ^ 53) :
    JSNumber.sub (.fin a) (.fin b) = .fin ((a - b : ℤ) : ℚ) := by
  have := ofRat_intCast (a - b) h
  show JSNumber.ofRat ((a : ℚ) + -(b : ℚ)) = _
  rw [← sub_eq_add_neg, ← Int.cast_sub]
  exact this

/-- The product of a draw with an integer `n` in `[1, 2 ^ 53]` is a finite
nonnegative double strictly below `n`. -/
theorem mul_draw_int {r : ℚ} (hr : IsUnitDraw r) {n : ℤ} (h1 : 1 ≤ n) (h2 : n ≤ 2 ^ 53) :
    JSNumber.mul (.fin r) (.fin n) = .fin (roundToDouble (r * n))
      ∧ 0 ≤ roundToDouble (r * n) ∧ roundToDouble (r * n) < n := by
  have hn : (0 : ℚ) < n := by exact_mod_cast (by omega : (0 : ℤ) < n)
  have h0 : 0 ≤ r * n := mul_nonneg hr.2.1 (le_of_lt hn)
  have hle : r * n ≤ n * (1 - 1 / 2 ^ 53) := by
    have := unitDraw_le hr
    rw [mul_comm]
    exact mul_le_mul_of_nonneg_left this (le_of_lt hn)
  have hnn := roundToDouble_nonneg h0
  have hlt := roundToDouble_lt_int h0 h1 h2 hle
  refine ⟨?_, hnn, hlt⟩
  have hb : |roundToDouble (r * n)| < 2 ^ 1024 := by
    rw [abs_of_nonneg hnn]
    have : (n : ℚ) ≤ 2 ^ 53 := by exact_mod_cast h2
    have : (2 : ℚ) ^ 53 < 2 ^ 1024 := by norm_num
    linarith
  simp only [JSNumber.mul, JSNumber.ofRat]
  rw [if_neg (not_le.mpr hb)]

/-- Evaluation of `getRandomInt` on bounds for which the integer arithmetic of
the expression is exact: only the product is rounded. -/
theorem getRandomInt_eval {r : ℚ} (hr : IsUnitDraw r) (min max : ℤ) (hmin : -2 ^ 53 ≤ min)
    (hmax : max ≤ 2 ^ 53) (hle : min ≤ max) (hw : max - min < 2 ^ 53) :
    getRandomInt (.fin r) (.fin min) (.fin max)
        = .fin ((⌊roundToDouble (r * ((max - min + 1 : ℤ) : ℚ))⌋ + min : ℤ) : ℚ)
      ∧ 0 ≤ ⌊roundToDouble (r * ((max - min + 1 : ℤ) : ℚ))⌋
      ∧ ⌊roundToDouble (r * ((max - min + 1 : ℤ) : ℚ))⌋ ≤ max - min := by
  obtain ⟨hm, hnn, hlt⟩ := mul_draw_int hr (n := max - min + 1) (by omega) (by omega)
  have hf0 : 0 ≤ ⌊roundToDouble (r * ((max - min + 1 : ℤ) : ℚ))⌋ := Int.floor_nonneg.mpr hnn
  have hf1 : ⌊roundToDouble (r * ((max - min + 1 : ℤ) : ℚ))⌋ ≤ max - min := by
    have : ⌊roundToDouble (r * ((max - min + 1 : ℤ) : ℚ))⌋ < max - min + 1 :=
      Int.floor_lt.mpr hlt
    omega
  refine ⟨?_, hf0, hf1⟩
  unfold getRandomInt
  have habs : ∀ z : ℤ, -2 ^ 53 ≤ z → z ≤ 2 ^ 53 → |z| ≤ 2 ^ 53 := fun z h1 h2 =>
    abs_le.mpr ⟨h1, h2⟩
  rw [sub_fin_int max min (habs _ (by omega) (by omega)),
    ofInt_eq 1 (by norm_num),
    add_fin_int (max - min) 1 (habs _ (by omega) (by omega)), hm]
  simp only [JSNumber.floor]
  rw [add_fin_int _ min (habs _ (by omega) (by omega))]

/-! ## The install step -/

/-- The install step spelled out: `screenX` is defined first, then `screenY`. -/
theorem install_eq (c : ScreenCoords) (realm : Realm) :
    install c realm =
      match validateAndApply realm.prototype.screenX (.ofValue c.x) with
      | none => (some .typeError, realm)
      | some px =>
        match validateAndApply realm.prototype.screenY (.ofValue c.y) with
        | none => (some .typeError,
            { realm with prototype := { realm.prototype with screenX := some px } })
        | some py => (none, { realm with prototype := ⟨some px, some py⟩ }) := by
  unfold install
  simp only [defineProperties, definePropertyOrThrow, PropertyTable.get]
  cases hx : validateAndApply realm.prototype.screenX (.ofValue c.x) with
  | none => rfl
  | some px =>
    simp only [PropertyTable.set, PropertyTable.get]
    cases hy : validateAndApply realm.prototype.screenY (.ofValue c.y) with
    | none => rfl
    | some py => rfl

/-- A definition with `{ value: v }` that is accepted leaves a data property
holding `v`, and keeps the `[[Configurable]]` attribute of an existing
property. -/
theorem validateAndApply_ofValue {cur : Option Property} {v : JSNumber} {p : Property}
    (h : validateAndApply cur (.ofValue v) = some p) :
    (∃ w e cf, p = .data (.number v) w e cf)
      ∧ ∀ q, cur = some q → p.configurable = q.configurable := by
  unfold validateAndApply at h
  cases cur with
  | none =>
    simp only [PropertyDescriptor.ofValue, Option.getD, Option.some.injEq] at h
    exact ⟨⟨_, _, _, h.symm⟩, fun q hq => by cases hq⟩
  | some q =>
    simp only at h
    split_ifs at h
    simp only [Option.some.injEq] at h
    subst h
    cases q with
    | data v0 w e cf =>
      exact ⟨⟨_, _, _, rfl⟩, fun q hq => by cases hq; rfl⟩
    | accessor s e cf =>
      exact ⟨⟨_, _, _, rfl⟩, fun q hq => by cases hq; rfl⟩

/-- What a successful install leaves behind. -/
theorem install_ok {c : ScreenCoords} {realm realm1 : Realm}
    (h : install c realm = (none, realm1)) :
    Installed c realm1.prototype ∧ realm1.random = realm.random ∧ realm1.drawn = realm.drawn
      ∧ realm1.declared = realm.declared := by
  rw [install_eq] at h
  cases hx : validateAndApply realm.prototype.screenX (.ofValue c.x) with
  | none => rw [hx] at h; cases h
  | some px =>
    rw [hx] at h
    cases hy : validateAndApply realm.prototype.screenY (.ofValue c.y) with
    | none => rw [hy] at h; cases h
    | some py =>
      rw [hy] at h
      simp only [Prod.mk.injEq, true_and] at h
      subst h
      obtain ⟨⟨wx, ex, cx, hpx⟩, _⟩ := validateAndApply_ofValue hx
      obtain ⟨⟨wy, ey, cy, hpy⟩, _⟩ := validateAndApply_ofValue hy
      refine ⟨?_, rfl, rfl, rfl⟩
      intro k
      cases k with
      | screenX => exact ⟨wx, ex, cx, by simp [PropertyTable.get, ScreenCoords.get, hpx]⟩
      | screenY => exact ⟨wy, ey, cy, by simp [PropertyTable.get, ScreenCoords.get, hpy]⟩

/-- The install step never touches the random source or the declared names. -/
theorem install_frame (c : ScreenCoords) (realm : Realm) :
    (install c realm).2.random = realm.random ∧ (install c realm).2.drawn = realm.drawn
      ∧ (install c realm).2.declared = realm.declared := by
  rw [install_eq]
  cases validateAndApply realm.prototype.screenX (.ofValue c.x) with
  | none => exact ⟨rfl, rfl, rfl⟩
  | some px =>
    cases validateAndApply realm.prototype.screenY (.ofValue c.y) with
    | none => exact ⟨rfl, rfl, rfl⟩
    | some py => exact ⟨rfl, rfl, rfl⟩

/-- On the platform's accessors the install step succeeds and leaves
non-writable, enumerable, configurable data properties. -/
theorem install_native (c : ScreenCoords) (realm : Realm)
    (h : realm.prototype = nativePrototype) :
    install c realm = (none, { realm with prototype :=
      ⟨some (.data (.number c.x) false true true), some (.data (.number c.y) false true true)⟩ }) := by
  rw [install_eq, h]
  rfl

/-- On configurable data properties the install step succeeds and replaces the
values. -/
theorem install_configurable_data (c : ScreenCoords) (realm : Realm) (vx vy : JSValue)
    (wx ex wy ey : Bool)
    (h : realm.prototype = ⟨some (.data vx wx ex true), some (.data vy wy ey true)⟩) :
    install c realm = (none, { realm with prototype :=
      ⟨some (.data (.number c.x) wx ex true), some (.data (.number c.y) wy ey true)⟩ }) := by
  rw [install_eq, h]
  rfl

/-! ## Reading -/

theorem getProperty_of_data {t : PropertyTable} {e : MouseEvent} {k : Key} {v : JSValue}
    {w en cf : Bool} (hown : e.own = ⟨none, none⟩) (h : t.get k = some (.data v w en cf)) :
    getProperty t e k = v := by
  unfold getProperty
  have : e.own.get k = none := by rw [hown]; cases k <;> rfl
  rw [this, h]
  rfl

theorem create_own (x y : JSNumber) : (MouseEvent.create x y).own = ⟨none, none⟩ := rfl

theorem clone_own (e : MouseEvent) : e.clone.own = ⟨none, none⟩ := rfl

/-! ## The script -/

theorem sampleScreenCoords_eq (realm : Realm) :
    sampleScreenCoords realm =
      (⟨getRandomInt (realm.random realm.drawn) (.ofInt 800) (.ofInt 1200),
        getRandomInt (realm.random (realm.drawn + 1)) (.ofInt 400) (.ofInt 600)⟩,
        { realm with drawn := realm.drawn + 2 }) := rfl

/-- A script whose names are already declared is rejected and changes nothing. -/
theorem evalScript_declared {realm : Realm}
    (h : scriptNames.any (fun n => realm.declared.contains n) = true) :
    evalScript realm = (some .syntaxError, realm) := by
  unfold evalScript
  rw [if_pos h]

theorem evalScript_fresh {realm : Realm}
    (h : scriptNames.any (fun n => realm.declared.contains n) = false) :
    evalScript realm = runStatements { realm with declared := scriptNames ++ realm.declared } := by
  unfold evalScript
  rw [if_neg (by rw [h]; exact Bool.false_ne_true)]

/-- A successful evaluation: the names were fresh, the pair was sampled from the
next two draws and installed. -/
theorem evalScript_ok {realm realm1 : Realm} (h : evalScript realm = (none, realm1)) :
    Installed (sampleScreenCoords realm).1 realm1.prototype
      ∧ realm1.random = realm.random ∧ realm1.drawn = realm.drawn + 2
      ∧ realm1.declared = scriptNames ++ realm.declared := by
  unfold evalScript at h
  split_ifs at h with hd
  · cases h
  · unfold runStatements at h
    rw [sampleScreenCoords_eq] at h
    obtain ⟨h1, h2, h3, h4⟩ := install_ok h
    exact ⟨h1, h2, h3, h4⟩

/-! ## Later code in the context -/

theorem Installed.of_readOnly {c : ScreenCoords} {t : PropertyTable}
    (h : InstalledReadOnly c t) : Installed c t := by
  intro k
  obtain ⟨e, cf, hk⟩ := h k
  exact ⟨false, e, cf, hk⟩

theorem start_consistent (c : ScreenCoords) (realm : Realm) :
    Page.Consistent c (Page.start realm) := by
  constructor
  · intro ev hev
    cases hev
  · intro o ho
    cases ho

/-- A read of an event without own properties yields the installed value and
leaves the context as it was. -/
theorem step_read {c : ScreenCoords} {p : Page} (ht : Installed c p.realm.prototype)
    (hp : Page.Consistent c p) (i : ℕ) (k : Key) :
    (p.step (.read i k)).realm = p.realm ∧ Page.Consistent c (p.step (.read i k)) := by
  cases hi : p.events.get? i with
  | none =>
    simp only [Page.step, hi]
    exact ⟨trivial, hp⟩
  | some e =>
    simp only [Page.step, hi]
    refine ⟨trivial, hp.1, ?_⟩
    intro o ho
    simp only [List.mem_cons] at ho
    rcases ho with rfl | ho
    · obtain ⟨w, en, cf, hk⟩ := ht k
      exact getProperty_of_data (hp.1 e (List.get?_mem hi)) hk
    · exact hp.2 o ho

theorem step_construct {c : ScreenCoords} {p : Page} (hp : Page.Consistent c p)
    (x y : JSNumber) :
    (p.step (.construct x y)).realm = p.realm
      ∧ Page.Consistent c (p.step (.construct x y)) := by
  refine ⟨rfl, ?_, hp.2⟩
  intro ev hev
  simp only [Page.step, List.mem_append, List.mem_singleton] at hev
  rcases hev with hev | rfl
  · exact hp.1 ev hev
  · rfl

theorem step_clone {c : ScreenCoords} {p : Page} (hp : Page.Consistent c p) (i : ℕ) :
    (p.step (.clone i)).realm = p.realm ∧ Page.Consistent c (p.step (.clone i)) := by
  cases hi : p.events.get? i with
  | none =>
    simp only [Page.step, hi]
    exact ⟨trivial, hp⟩
  | some e =>
    simp only [Page.step, hi]
    refine ⟨trivial, ?_, hp.2⟩
    intro ev hev
    simp only [List.mem_append, List.mem_singleton] at hev
    rcases hev with hev | rfl
    · exact hp.1 ev hev
    · rfl

/-- An assignment to an event is ignored while the prototype's property is a
non-writable data property. -/
theorem assignEvent_readOnly {c : ScreenCoords} {t : PropertyTable} {e : MouseEvent}
    (ht : InstalledReadOnly c t) (he : e.own = ⟨none, none⟩) (k : Key) (v : JSValue) :
    assignEvent t e k v = e := by
  unfold assignEvent
  have : e.own.get k = none := by rw [he]; cases k <;> rfl
  obtain ⟨en, cf, hk⟩ := ht k
  rw [this, hk]

/-- An assignment to the prototype is ignored while its property is a
non-writable data property. -/
theorem assignPrototype_readOnly {c : ScreenCoords} {t : PropertyTable}
    (ht : InstalledReadOnly c t) (k : Key) (v : JSValue) : assignPrototype t k v = t := by
  unfold assignPrototype
  obtain ⟨en, cf, hk⟩ := ht k
  rw [hk]

theorem step_assignEvent {c : ScreenCoords} {p : Page}
    (ht : InstalledReadOnly c p.realm.prototype) (hp : Page.Consistent c p) (i : ℕ) (k : Key)
    (v : JSValue) :
    (p.step (.assignEvent i k v)).realm = p.realm
      ∧ Page.Consistent c (p.step (.assignEvent i k v)) := by
  cases hi : p.events.get? i with
  | none =>
    simp only [Page.step, hi]
    exact ⟨trivial, hp⟩
  | some e =>
    simp only [Page.step, hi]
    refine ⟨trivial, ?_, hp.2⟩
    intro ev hev
    rcases List.mem_or_eq_of_mem_set hev with h1 | h1
    · exact hp.1 ev h1
    · rw [h1, assignEvent_readOnly ht (hp.1 e (List.get?_mem hi))]
      exact hp.1 e (List.get?_mem hi)

theorem step_assignPrototype {c : ScreenCoords} {p : Page}
    (ht : InstalledReadOnly c p.realm.prototype) (hp : Page.Consistent c p) (k : Key)
    (v : JSValue) :
    (p.step (.assignPrototype k v)).realm = p.realm
      ∧ Page.Consistent c (p.step (.assignPrototype k v)) := by
  simp only [Page.step, assignPrototype_readOnly ht]
  exact ⟨trivial, hp⟩

/-- Creating and reading events leaves the context alone and every read yields
the installed pair. -/
theorem run_observations (c : ScreenCoords) (actions : List Action) :
    ∀ p : Page, Installed c p.realm.prototype → Page.Consistent c p →
      (∀ a ∈ actions, a.isObservation = true) →
      (p.run actions).realm = p.realm ∧ Page.Consistent c (p.run actions) := by
  induction actions with
  | nil => intro p _ hp _; exact ⟨rfl, hp⟩
  | cons a rest ih =>
    intro p ht hp hall
    have ha := hall a (List.mem_cons_self a rest)
    have hstep : (p.step a).realm = p.realm ∧ Page.Consistent c (p.step a) := by
      cases a with
      | construct x y => exact step_construct hp x y
      | clone i => exact step_clone hp i
      | read i k => exact step_read ht hp i k
      | assignEvent i k v => cases ha
      | assignPrototype k v => cases ha
      | definePrototype k d => cases ha
    have hrest := ih (p.step a) (by rw [hstep.1]; exact ht) hstep.2
      (fun b hb => hall b (List.mem_cons_of_mem a hb))
    show ((p.step a).run rest).realm = p.realm ∧ Page.Consistent c ((p.step a).run rest)
    exact ⟨hrest.1.trans hstep.1, hrest.2⟩

/-- Steps other than a definition on the prototype leave the context alone
while the installed properties are non-writable, and every read yields the
installed pair. -/
theorem run_without_definitions (c : ScreenCoords) (actions : List Action) :
    ∀ p : Page, InstalledReadOnly c p.realm.prototype → Page.Consistent c p →
      (∀ a ∈ actions, a.isDefinition = false) →
      (p.run actions).realm = p.realm ∧ Page.Consistent c (p.run actions) := by
  induction actions with
  | nil => intro p _ hp _; exact ⟨rfl, hp⟩
  | cons a rest ih =>
    intro p ht hp hall
    have ha := hall a (List.mem_cons_self a rest)
    have hstep : (p.step a).realm = p.realm ∧ Page.Consistent c (p.step a) := by
      cases a with
      | construct x y => exact step_construct hp x y
      | clone i => exact step_clone hp i
      | read i k => exact step_read (Installed.of_readOnly ht) hp i k
      | assignEvent i k v => exact step_assignEvent ht hp i k v
      | assignPrototype k v => exact step_assignPrototype ht hp k v
      | definePrototype k d => cases ha
    have hrest := ih (p.step a) (by rw [hstep.1]; exact ht) hstep.2
      (fun b hb => hall b (List.mem_cons_of_mem a hb))
    show ((p.step a).run rest).realm = p.realm ∧ Page.Consistent c ((p.step a).run rest)
    exact ⟨hrest.1.trans hstep.1, hrest.2⟩

/-- On the platform's accessors, with the script's names not declared yet, the
evaluation succeeds: two draws are consumed, the names are declared, and the
sampled pair is installed as non-writable, enumerable, configurable data
properties. -/
theorem evalScript_native {realm : Realm} (hnat : realm.prototype = nativePrototype)
    (hfresh : scriptNames.any (fun n => realm.declared.contains n) = false) :
    evalScript realm = (none,
      ⟨realm.random, realm.drawn + 2, scriptNames ++ realm.declared,
        ⟨some (.data (.number (sampleScreenCoords realm).1.x) false true true),
          some (.data (.number (sampleScreenCoords realm).1.y) false true true)⟩⟩) := by
  rw [evalScript_fresh hfresh]
  unfold runStatements
  rw [sampleScreenCoords_eq]
  simp only
  rw [install_native _ _ (by exact hnat)]
  rfl

theorem fresh_of_evalScript_ok {realm realm1 : Realm} (h : evalScript realm = (none, realm1)) :
    scriptNames.any (fun n => realm.declared.contains n) = false := by
  unfold evalScript at h
  split_ifs at h with hd
  · cases h
  · simpa using hd

/-- After a successful evaluation the script's names are declared. -/
theorem declared_after_evalScript {realm realm1 : Realm}
    (h : evalScript realm = (none, realm1)) :
    scriptNames.any (fun n => realm1.declared.contains n) = true := by
  obtain ⟨_, _, _, hd⟩ := evalScript_ok h
  rw [hd]
  simp [scriptNames]

theorem step_read_realm (p : Page) (i : ℕ) (k : Key) : (p.step (.read i k)).realm = p.realm := by
  cases hi : p.events.get? i with
  | none => simp only [Page.step, hi]
  | some e => simp only [Page.step, hi]

theorem runStatements_drawn (realm : Realm) :
    (runStatements realm).2.drawn = realm.drawn + 2
      ∧ (runStatements realm).2.random = realm.random := by
  unfold runStatements
  rw [sampleScreenCoords_eq]
  obtain ⟨h1, h2, _⟩ := install_frame
    ⟨getRandomInt (realm.random realm.drawn) (.ofInt 800) (.ofInt 1200),
      getRandomInt (realm.random (realm.drawn + 1)) (.ofInt 400) (.ofInt 600)⟩
    { realm with drawn := realm.drawn + 2 }
  exact ⟨h2, h1⟩

/-! ## Concrete doubles -/

theorem le_roundHalfEven_of_sub_half_lt {x : ℚ} {n : ℤ} (h : (n : ℚ) - 1 / 2 < x) :
    n ≤ roundHalfEven x := by
  have h1 := sub_half_le_roundHalfEven x
  have h2 : ((n - 1 : ℤ) : ℚ) < (roundHalfEven x : ℚ) := by
    push_cast
    linarith
  have h3 : n - 1 < roundHalfEven x := by exact_mod_cast h2
  omega

/-- An exact value within half a unit of the integer `n` rounds to `n`. -/
theorem roundHalfEven_eq_of_close {x : ℚ} {n : ℤ} (h1 : (n : ℚ) - 1 / 2 < x)
    (h2 : x < n + 1 / 2) : roundHalfEven x = n := by
  apply le_antisymm
  · have : x < ((n + 1 : ℤ) : ℚ) - 1 / 2 := by
      push_cast
      linarith
    have := roundHalfEven_lt_of_lt_sub_half this
    omega
  · exact le_roundHalfEven_of_sub_half_lt h1

/-- Rounding in a known binade `e`: an exact value within half a spacing of
`n * 2 ^ (e - 52)` rounds to it. -/
theorem roundToDouble_eq_of_close {x : ℚ} {e n : ℤ} (hexp : exponent x = e)
    (h1 : (n : ℚ) - 1 / 2 < x / 2 ^ (e - 52)) (h2 : x / 2 ^ (e - 52) < n + 1 / 2) :
    roundToDouble x = n * 2 ^ (e - 52) := by
  unfold roundToDouble ulp
  rw [hexp, roundHalfEven_eq_of_close h1 h2]

theorem isDouble_zero : IsDouble 0 := ⟨roundToDouble_zero, by norm_num⟩

theorem isUnitDraw_zero : IsUnitDraw 0 := ⟨isDouble_zero, le_refl _, by norm_num⟩

/-- Every multiple `m / 2 ^ 53` with `m < 2 ^ 53` is a possible draw. -/
theorem isUnitDraw_of_nat (m : ℕ) (h : m < 2 ^ 53) : IsUnitDraw ((m : ℚ) / 2 ^ 53) := by
  have hm : (m : ℚ) < 2 ^ 53 := by exact_mod_cast h
  have h53 : (0 : ℚ) < 2 ^ 53 := by positivity
  have hlt : (m : ℚ) / 2 ^ 53 < 1 := (div_lt_one h53).mpr hm
  have hnn : (0 : ℚ) ≤ (m : ℚ) / 2 ^ 53 := by positivity
  refine ⟨⟨?_, ?_⟩, hnn, hlt⟩
  · have e : (m : ℚ) / 2 ^ 53 = ((m : ℤ) : ℚ) * 2 ^ (-53 : ℤ) := by
      rw [zpow_neg, div_eq_mul_inv]
      norm_num
    rw [e]
    apply roundToDouble_dyadic
    · rw [abs_of_nonneg (by positivity)]
      exact_mod_cast h
    · norm_num
  · rw [abs_of_nonneg hnn]
    have : (1 : ℚ) < 2 ^ 1024 := by norm_num
    linarith

theorem isUnitDraw_half : IsUnitDraw (1 / 2) := by
  have := isUnitDraw_of_nat (2 ^ 52) (by norm_num)
  have e : (((2 ^ 52 : ℕ) : ℚ)) / 2 ^ 53 = 1 / 2 := by norm_num
  rwa [e] at this

/-- An integer `K` in `[0, 2 ^ 53]` no larger than the exact value stays no
larger than the rounded value. -/
theorem int_le_roundToDouble {y : ℚ} {K : ℤ} (hK0 : 0 ≤ K) (hK : K ≤ 2 ^ 53)
    (h : (K : ℚ) ≤ y) : (K : ℚ) ≤ roundToDouble y := by
  have h0 : (0 : ℚ) ≤ K := by exact_mod_cast hK0
  have := roundToDouble_mono h0 h
  rwa [roundToDouble_intCast K (abs_le.mpr ⟨by omega, hK⟩)] at this

/-- The double nearest to the decimal `0.999999`. -/
theorem roundToDouble_decimal :
    roundToDouble (999999 / 1000000) = 9007190247541737 / 2 ^ 53 := by
  have hexp : exponent (999999 / 1000000 : ℚ) = -1 := by
    apply exponent_eq
    · rw [abs_of_nonneg (by norm_num)]
      norm_num
    · rw [abs_of_nonneg (by norm_num)]
      norm_num
    · norm_num
  have := roundToDouble_eq_of_close (x := 999999 / 1000000) (e := -1) (n := 9007190247541737)
    hexp (by norm_num) (by norm_num)
  rw [this]
  norm_num

theorem isUnitDraw_decimal : IsUnitDraw (roundToDouble (999999 / 1000000)) := by
  rw [roundToDouble_decimal]
  have := isUnitDraw_of_nat 9007190247541737 (by norm_num)
  simpa using this

theorem ofRat_decimal :
    JSNumber.ofRat (999999 / 1000000) = .fin (roundToDouble (999999 / 1000000)) :=
  by
    unfold JSNumber.ofRat
    have h := isUnitDraw_decimal
    have hb : |roundToDouble (999999 / 1000000)| < 2 ^ 1024 := by
      rw [abs_of_nonneg h.2.1]
      have : (1 : ℚ) < 2 ^ 1024 := by norm_num
      linarith [h.2.2]
    rw [if_neg (not_le.mpr hb)]

/-! ## Rounding of negative values, integers and large values -/

theorem roundHalfEven_neg (x : ℚ) : roundHalfEven (-x) = -roundHalfEven x := by
  by_cases hx : ((⌊x⌋ : ℤ) : ℚ) = x
  · rw [← hx, ← Int.cast_neg, roundHalfEven_intCast, roundHalfEven_intCast]
  · have h1 := Int.floor_le x
    have h2 := Int.lt_floor_add_one x
    have h3 : ((⌊x⌋ : ℤ) : ℚ) < x := lt_of_le_of_ne h1 hx
    have hf : ⌊-x⌋ = -⌊x⌋ - 1 := by
      rw [Int.floor_eq_iff]
      push_cast
      constructor <;> linarith
    unfold roundHalfEven
    rw [hf]
    split_ifs <;> first | omega | (exfalso; push_cast at *; linarith)

theorem exponent_neg (x : ℚ) : exponent (-x) = exponent x := by
  unfold exponent
  simp [abs_neg, neg_eq_zero]

theorem roundToDouble_neg (x : ℚ) : roundToDouble (-x) = -roundToDouble x := by
  unfold roundToDouble ulp
  rw [exponent_neg, neg_div, roundHalfEven_neg]
  push_cast
  ring

theorem roundToDouble_nonpos {x : ℚ} (h : x ≤ 0) : roundToDouble x ≤ 0 := by
  have := roundToDouble_nonneg (neg_nonneg.mpr h)
  rw [roundToDouble_neg] at this
  linarith

/-- Rounding keeps the order of exact values of either sign. -/
theorem roundToDouble_monotone {x y : ℚ} (h : x ≤ y) : roundToDouble x ≤ roundToDouble y := by
  rcases le_total 0 x with hx | hx
  · exact roundToDouble_mono hx h
  · rcases le_total 0 y with hy | hy
    · exact le_trans (roundToDouble_nonpos hx) (roundToDouble_nonneg hy)
    · have := roundToDouble_mono (neg_nonneg.mpr hy) (neg_le_neg h)
      rw [roundToDouble_neg, roundToDouble_neg] at this
      linarith

/-- An integer rounds to an integer. -/
theorem roundToDouble_int (z : ℤ) : ∃ w : ℤ, roundToDouble (z : ℚ) = w := by
  by_cases h : |z| ≤ 2 ^ 53
  · exact ⟨z, roundToDouble_intCast z h⟩
  · have hz : (2 : ℚ) ^ (53 : ℤ) ≤ |(z : ℚ)| := by
      have h1 : (2 : ℤ) ^ 53 ≤ |z| := le_of_lt (not_le.mp h)
      have h2 : ((2 ^ 53 : ℤ) : ℚ) ≤ ((|z| : ℤ) : ℚ) := by exact_mod_cast h1
      rw [Int.cast_abs] at h2
      norm_num at h2 ⊢
      exact h2
    have hz0 : (z : ℚ) ≠ 0 := by
      intro h0
      rw [h0] at hz
      norm_num at hz
    have hlog : 53 ≤ Int.log 2 |(z : ℚ)| := by
      have h3 : ((2 : ℕ) : ℚ) = 2 := by norm_num
      exact (Int.zpow_le_iff_le_log (b := 2) (by norm_num) (x := 53) (abs_pos.mpr hz0)).mp
        (by rw [h3]; exact hz)
    have hexp : 53 ≤ exponent (z : ℚ) := le_trans hlog (log_le_exponent hz0)
    obtain ⟨j, hj⟩ : ∃ j : ℕ, (j : ℤ) = exponent (z : ℚ) - 52 :=
      ⟨(exponent (z : ℚ) - 52).toNat, by omega⟩
    refine ⟨roundHalfEven ((z : ℚ) / ulp (z : ℚ)) * 2 ^ j, ?_⟩
    unfold roundToDouble
    push_cast
    congr 1
    unfold ulp
    rw [← hj, zpow_natCast]

/-- Below the midpoint between the largest double and `2 ^ 1024` a nonnegative
exact value rounds to a finite double. -/
theorem roundToDouble_le_max {x : ℚ} (h0 : 0 ≤ x) (h : x < 2 ^ 1024 - 2 ^ 970) :
    roundToDouble x ≤ 2 ^ 1024 - 2 ^ 971 := by
  have hmax : roundToDouble ((2 : ℚ) ^ 1024 - 2 ^ 971) = 2 ^ 1024 - 2 ^ 971 := by
    have := roundToDouble_dyadic (2 ^ 53 - 1) 971 (by norm_num) (by norm_num)
    have e : (((2 ^ 53 - 1 : ℤ) : ℚ)) * 2 ^ (971 : ℤ) = 2 ^ 1024 - 2 ^ 971 := by norm_num
    rwa [e] at this
  rcases le_or_lt x (2 ^ 1024 - 2 ^ 971) with hle | hgt
  · have := roundToDouble_mono h0 hle
    rwa [hmax] at this
  · have hexp : exponent x = 1023 := by
      apply exponent_eq
      · rw [abs_of_nonneg h0]
        have : (2 : ℚ) ^ (1023 : ℤ) ≤ 2 ^ 1024 - 2 ^ 971 := by norm_num
        linarith
      · rw [abs_of_nonneg h0]
        have : (2 : ℚ) ^ 1024 - 2 ^ 970 < 2 ^ ((1023 : ℤ) + 1) := by norm_num
        linarith
      · norm_num
    unfold roundToDouble ulp
    rw [hexp]
    have hu : (2 : ℚ) ^ ((1023 : ℤ) - 52) = 2 ^ 971 := by norm_num
    rw [hu]
    have hlt : x / 2 ^ 971 < ((2 ^ 53 : ℤ) : ℚ) - 1 / 2 := by
      rw [div_lt_iff₀ (by positivity)]
      have : (((2 ^ 53 : ℤ) : ℚ) - 1 / 2) * 2 ^ 971 = 2 ^ 1024 - 2 ^ 970 := by norm_num
      rw [this]
      exact h
    have hr := roundHalfEven_lt_of_lt_sub_half hlt
    have hr2 : (roundHalfEven (x / 2 ^ 971) : ℚ) ≤ 2 ^ 53 - 1 := by
      have h3 : roundHalfEven (x / 2 ^ 971) ≤ 2 ^ 53 - 1 := by omega
      have h4 : (roundHalfEven (x / 2 ^ 971) : ℚ) ≤ ((2 ^ 53 - 1 : ℤ) : ℚ) := Int.cast_le.mpr h3
      have h5 : ((2 ^ 53 - 1 : ℤ) : ℚ) = 2 ^ 53 - 1 := by norm_num
      rw [h5] at h4
      exact h4
    have : (roundHalfEven (x / 2 ^ 971) : ℚ) * 2 ^ 971 ≤ (2 ^ 53 - 1) * 2 ^ 971 :=
      mul_le_mul_of_nonneg_right hr2 (by positivity)
    have e2 : ((2 : ℚ) ^ 53 - 1) * 2 ^ 971 = 2 ^ 1024 - 2 ^ 971 := by norm_num
    rw [e2] at this
    exact this

/-- A value `t * 2 ^ j` with `|t| ≤ 2 ^ 53` is a fixed point of the rounding. -/
theorem roundToDouble_grid (t j : ℤ) (ht : |t| ≤ 2 ^ 53) (hj : -1074 ≤ j) :
    roundToDouble ((t : ℚ) * 2 ^ j) = (t : ℚ) * 2 ^ j := by
  rcases lt_or_eq_of_le ht with h1 | h1
  · exact roundToDouble_dyadic t j h1 hj
  · have h2 : (t : ℚ) * 2 ^ j = ((t / 2 : ℤ) : ℚ) * 2 ^ (j + 1) := by
      have : t = t / 2 * 2 := by
        rcases abs_cases t with ⟨ha, _⟩ | ⟨ha, _⟩ <;> omega
      conv_lhs => rw [this]
      rw [zpow_add₀ (by norm_num : (2 : ℚ) ≠ 0), zpow_one]
      push_cast
      ring
    rw [h2]
    apply roundToDouble_dyadic
    · rcases abs_cases t with ⟨ha, _⟩ | ⟨ha, _⟩ <;>
        rcases abs_cases (t / 2) with ⟨hb, _⟩ | ⟨hb, _⟩ <;> omega
    · omega

/-- An exact value less than half a spacing above the double `t * 2 ^ j` rounds
down to it. -/
theorem roundToDouble_of_small_excess (t j : ℤ) (ht1 : 2 ^ 52 ≤ t) (ht2 : t < 2 ^ 53)
    (hj : -1074 ≤ j) {x : ℚ} (h1 : (t : ℚ) * 2 ^ j ≤ x) (h2 : x < (t : ℚ) * 2 ^ j + 2 ^ j / 2) :
    roundToDouble x = (t : ℚ) * 2 ^ j := by
  have hu := two_zpow_pos j
  have ht1q : (2 : ℚ) ^ 52 ≤ t := by exact_mod_cast ht1
  have ht2q : (t : ℚ) + 1 ≤ 2 ^ 53 := by exact_mod_cast (by omega : t + 1 ≤ 2 ^ 53)
  have hx0 : 0 ≤ x := le_trans (by positivity) h1
  have hexp : exponent x = 52 + j := by
    apply exponent_eq
    · rw [abs_of_nonneg hx0, zpow_add₀ (by norm_num : (2 : ℚ) ≠ 0)]
      have : (2 : ℚ) ^ (52 : ℤ) * 2 ^ j ≤ t * 2 ^ j :=
        mul_le_mul_of_nonneg_right (by norm_num at ht1q ⊢; exact ht1q) (le_of_lt hu)
      linarith
    · rw [abs_of_nonneg hx0]
      have e : (2 : ℚ) ^ (52 + j + 1) = 2 ^ 53 * 2 ^ j := by
        rw [show (52 + j + 1 : ℤ) = 53 + j by ring, zpow_add₀ (by norm_num : (2 : ℚ) ≠ 0)]
        norm_num
      rw [e]
      have : ((t : ℚ) + 1) * 2 ^ j ≤ 2 ^ 53 * 2 ^ j :=
        mul_le_mul_of_nonneg_right ht2q (le_of_lt hu)
      linarith
    · omega
  have hs : (52 + j - 52 : ℤ) = j := by ring
  have := roundToDouble_eq_of_close (x := x) (e := 52 + j) (n := t) hexp
    (by
      rw [hs, lt_div_iff₀ hu]
      linarith)
    (by
      rw [hs, div_lt_iff₀ hu]
      linarith)
  rw [this, hs]

/-- The value halfway between `a` and `a + 1` rounds to the even one. -/
theorem roundHalfEven_tie (a : ℤ) (h : a % 2 = 0) : roundHalfEven ((a : ℚ) + 1 / 2) = a := by
  have hf : ⌊(a : ℚ) + 1 / 2⌋ = a := by
    rw [Int.floor_eq_iff]
    constructor <;> linarith
  unfold roundHalfEven
  rw [hf]
  have h1 : ¬((a : ℚ) + 1 / 2 - a < 1 / 2) := by
    intro hh
    linarith
  have h2 : ¬((1 : ℚ) / 2 < (a : ℚ) + 1 / 2 - a) := by
    intro hh
    linarith
  rw [if_neg h1, if_neg h2, if_pos h]

/-- Values up to `t * 2 ^ j * (1 - 2 ^ (-53))` round to a double on the grid of
spacing `2 ^ j` strictly below `t * 2 ^ j`. -/
theorem roundToDouble_le_grid (j : ℕ) (t : ℤ) (ht1 : 2 ^ 52 < t) (ht2 : t ≤ 2 ^ 53) {y : ℚ}
    (hy0 : 0 ≤ y) (hy : y ≤ (t : ℚ) * 2 ^ j * (1 - 1 / 2 ^ 53)) :
    roundToDouble y ≤ ((t : ℚ) - 1) * 2 ^ j := by
  have hu : (0 : ℚ) < 2 ^ j := by positivity
  have ht1q : (2 : ℚ) ^ 52 + 1 ≤ t := by exact_mod_cast (by omega : (2 : ℤ) ^ 52 + 1 ≤ t)
  have ht2q : (t : ℚ) ≤ 2 ^ 53 := by exact_mod_cast ht2
  have htpos : (0 : ℚ) < t := by linarith [show (0 : ℚ) < 2 ^ 52 by positivity]
  have hylt : y < (t : ℚ) * 2 ^ j := by
    have : (0 : ℚ) < (t : ℚ) * 2 ^ j * (1 / 2 ^ 53) := by positivity
    linarith
  have hE : exponent y ≤ 52 + (j : ℤ) := by
    apply exponent_le_of_abs_lt _ (by omega)
    rw [abs_of_nonneg hy0]
    have e : (2 : ℚ) ^ (52 + (j : ℤ) + 1) = 2 ^ 53 * 2 ^ j := by
      rw [show (52 + (j : ℤ) + 1 : ℤ) = 53 + j by ring, zpow_add₀ (by norm_num : (2 : ℚ) ≠ 0),
        zpow_natCast]
      norm_num
    rw [e]
    have : (t : ℚ) * 2 ^ j ≤ 2 ^ 53 * 2 ^ j := mul_le_mul_of_nonneg_right ht2q (le_of_lt hu)
    linarith
  have hlow : (2 : ℚ) ^ (52 + (j : ℤ)) ≤ ((t : ℚ) - 1) * 2 ^ j := by
    rw [zpow_add₀ (by norm_num : (2 : ℚ) ≠ 0), zpow_natCast]
    have : (2 : ℚ) ^ (52 : ℤ) ≤ (t : ℚ) - 1 := by
      norm_num
      linarith
    exact mul_le_mul_of_nonneg_right this (le_of_lt hu)
  rcases hE.lt_or_eq with hlt | heq
  · have h1 := roundToDouble_le_two_zpow hy0
    have h2 : (2 : ℚ) ^ (exponent y + 1) ≤ 2 ^ (52 + (j : ℤ)) :=
      zpow_le_zpow_right₀ (by norm_num) (by omega)
    linarith
  · have hulp : ulp y = 2 ^ j := by
      unfold ulp
      rw [heq, show (52 + (j : ℤ) - 52 : ℤ) = j by ring, zpow_natCast]
    unfold roundToDouble
    rw [hulp]
    have hlt : y / 2 ^ j < (t : ℚ) - 1 / 2 := by
      rw [div_lt_iff₀ hu]
      have h3 : (t : ℚ) * 2 ^ j * (1 - 1 / 2 ^ 53) = (t - t / 2 ^ 53) * 2 ^ j := by ring
      have h4 : (1 : ℚ) / 2 < t / 2 ^ 53 := by
        rw [lt_div_iff₀ (by positivity)]
        norm_num at ht1q ⊢
        linarith
      have h5 : ((t : ℚ) - t / 2 ^ 53) * 2 ^ j < (t - 1 / 2) * 2 ^ j :=
        mul_lt_mul_of_pos_right (by linarith) hu
      linarith
    have hr := roundHalfEven_lt_of_lt_sub_half hlt
    have hr2 : (roundHalfEven (y / 2 ^ j) : ℚ) ≤ t - 1 := by
      have : roundHalfEven (y / 2 ^ j) ≤ t - 1 := by omega
      exact_mod_cast this
    exact mul_le_mul_of_nonneg_right hr2 (le_of_lt hu)

theorem le_exponent {x : ℚ} {k : ℤ} (h : (2 : ℚ) ^ k ≤ |x|) : k ≤ exponent x := by
  have hx : 0 < |x| := lt_of_lt_of_le (two_zpow_pos k) h
  have h3 : ((2 : ℕ) : ℚ) = 2 := by norm_num
  have := (Int.zpow_le_iff_le_log (b := 2) (by norm_num) (x := k) hx).mp (by rw [h3]; exact h)
  exact le_trans this (log_le_exponent (abs_pos.mp hx))

/-- For an integer span `D ≥ 2 ^ 53` there is a grid of doubles of spacing
`2 ^ j` around it: `(t - 1) * 2 ^ j ≤ D`, and the width the script computes,
`D` rounded, plus one, rounded again, does not exceed `t * 2 ^ j`. -/
theorem width_le_grid (D : ℤ) (hD : 2 ^ 53 ≤ D) :
    ∃ (j : ℕ) (t : ℤ), 2 ^ 52 < t ∧ t ≤ 2 ^ 53 ∧ ((t : ℚ) - 1) * 2 ^ j ≤ D
      ∧ roundToDouble (roundToDouble (D : ℚ) + 1) ≤ (t : ℚ) * 2 ^ j := by
  have hDq : (2 : ℚ) ^ 53 ≤ D := by exact_mod_cast hD
  have hD0 : (0 : ℚ) < D := lt_of_lt_of_le (by positivity) hDq
  have hexp53 : 53 ≤ exponent (D : ℚ) := by
    apply le_exponent
    rw [abs_of_pos hD0]
    norm_num at hDq ⊢
    exact hDq
  obtain ⟨j, hj⟩ : ∃ j : ℕ, (j : ℤ) = exponent (D : ℚ) - 52 :=
    ⟨(exponent (D : ℚ) - 52).toNat, by omega⟩
  have hj1 : 1 ≤ j := by omega
  have hu : (0 : ℚ) < 2 ^ j := by positivity
  have hu2 : (2 : ℚ) ≤ 2 ^ j := by
    calc (2 : ℚ) = 2 ^ 1 := by norm_num
      _ ≤ 2 ^ j := pow_le_pow_right₀ (by norm_num) hj1
  have hulp : ulp (D : ℚ) = 2 ^ j := by
    unfold ulp
    rw [← hj, zpow_natCast]
  have hlo : (2 : ℚ) ^ 52 * 2 ^ j ≤ D := by
    have := two_zpow_exponent_le (x := (D : ℚ)) (by omega)
    rw [abs_of_pos hD0] at this
    have e : (2 : ℚ) ^ exponent (D : ℚ) = 2 ^ 52 * 2 ^ j := by
      rw [show exponent (D : ℚ) = 52 + (j : ℤ) by omega, zpow_add₀ (by norm_num : (2 : ℚ) ≠ 0),
        zpow_natCast]
      norm_num
    rwa [e] at this
  have hhi : (D : ℚ) < 2 ^ 53 * 2 ^ j := by
    have := abs_lt_two_zpow_exponent (D : ℚ)
    rw [abs_of_pos hD0] at this
    have e : (2 : ℚ) ^ (exponent (D : ℚ) + 1) = 2 ^ 53 * 2 ^ j := by
      rw [show exponent (D : ℚ) + 1 = 53 + (j : ℤ) by omega,
        zpow_add₀ (by norm_num : (2 : ℚ) ≠ 0), zpow_natCast]
      norm_num
    rwa [e] at this
  have hf1 : (2 : ℤ) ^ 52 ≤ ⌊(D : ℚ) / 2 ^ j⌋ := by
    rw [Int.le_floor, le_div_iff₀ hu]
    push_cast
    exact hlo
  have hf2 : ⌊(D : ℚ) / 2 ^ j⌋ < 2 ^ 53 := by
    rw [Int.floor_lt, div_lt_iff₀ hu]
    push_cast
    exact hhi
  have hfle : ((⌊(D : ℚ) / 2 ^ j⌋ : ℤ) : ℚ) * 2 ^ j ≤ D := by
    rw [← le_div_iff₀ hu]
    exact Int.floor_le _
  refine ⟨j, ⌊(D : ℚ) / 2 ^ j⌋ + 1, by omega, by omega, ?_, ?_⟩
  · push_cast
    rw [add_sub_cancel_right]
    exact hfle
  · have hd : roundToDouble (D : ℚ) = (roundHalfEven ((D : ℚ) / 2 ^ j) : ℚ) * 2 ^ j := by
      unfold roundToDouble
      rw [hulp]
    have hm1 := floor_le_roundHalfEven ((D : ℚ) / 2 ^ j)
    have hm2 := roundHalfEven_le_floor_add_one ((D : ℚ) / 2 ^ j)
    have hgrid : roundToDouble (((⌊(D : ℚ) / 2 ^ j⌋ + 1 : ℤ) : ℚ) * 2 ^ j)
        = ((⌊(D : ℚ) / 2 ^ j⌋ + 1 : ℤ) : ℚ) * 2 ^ j := by
      have := roundToDouble_grid (⌊(D : ℚ) / 2 ^ j⌋ + 1) j
        (abs_le.mpr ⟨by omega, by omega⟩) (by omega)
      rwa [zpow_natCast] at this
    rcases (show roundHalfEven ((D : ℚ) / 2 ^ j) = ⌊(D : ℚ) / 2 ^ j⌋
        ∨ roundHalfEven ((D : ℚ) / 2 ^ j) = ⌊(D : ℚ) / 2 ^ j⌋ + 1 by omega) with hm | hm
    · -- the span rounds down
      rw [hd, hm]
      have hle : ((⌊(D : ℚ) / 2 ^ j⌋ : ℤ) : ℚ) * 2 ^ j + 1
          ≤ ((⌊(D : ℚ) / 2 ^ j⌋ + 1 : ℤ) : ℚ) * 2 ^ j := by
        push_cast
        linarith
      have h0 : (0 : ℚ) ≤ ((⌊(D : ℚ) / 2 ^ j⌋ : ℤ) : ℚ) * 2 ^ j + 1 := by
        have : (0 : ℚ) ≤ ((⌊(D : ℚ) / 2 ^ j⌋ : ℤ) : ℚ) := by
          exact_mod_cast (by omega : (0 : ℤ) ≤ ⌊(D : ℚ) / 2 ^ j⌋)
        positivity
      have := roundToDouble_mono h0 hle
      rwa [hgrid] at this
    · -- the span rounds up to the grid point above it
      rw [hd, hm]
      by_cases ht : ⌊(D : ℚ) / 2 ^ j⌋ + 1 = 2 ^ 53
      · have := roundToDouble_of_small_excess (2 ^ 52) ((j : ℤ) + 1) (by norm_num) (by norm_num)
          (by omega) (x := ((⌊(D : ℚ) / 2 ^ j⌋ + 1 : ℤ) : ℚ) * 2 ^ j + 1)
          (by
            rw [ht, zpow_add₀ (by norm_num : (2 : ℚ) ≠ 0), zpow_natCast]
            push_cast
            have : (0 : ℚ) ≤ 2 ^ j := le_of_lt hu
            nlinarith)
          (by
            rw [ht, zpow_add₀ (by norm_num : (2 : ℚ) ≠ 0), zpow_natCast]
            push_cast
            nlinarith)
        rw [this, ht, zpow_add₀ (by norm_num : (2 : ℚ) ≠ 0), zpow_natCast]
        push_cast
        apply le_of_eq
        ring
      · have ht2 : ⌊(D : ℚ) / 2 ^ j⌋ + 1 < 2 ^ 53 := by omega
        by_cases hj2 : j = 1
        · subst hj2
          have hpar : ⌊(D : ℚ) / 2 ^ 1⌋ % 2 = 1 := by
            -- a tie that went up: the floor is odd
            rcases Int.emod_two_eq_zero_or_one D with hev | hodd
            · exfalso
              obtain ⟨a, ha⟩ : ∃ a, D = 2 * a := ⟨D / 2, by omega⟩
              have hq : (D : ℚ) / 2 ^ 1 = ((a : ℤ) : ℚ) := by
                rw [ha]
                push_cast
                ring
              rw [hq, roundHalfEven_intCast, Int.floor_intCast] at hm
              omega
            · obtain ⟨a, ha⟩ : ∃ a, D = 2 * a + 1 := ⟨D / 2, by omega⟩
              have hq : (D : ℚ) / 2 ^ 1 = (a : ℚ) + 1 / 2 := by
                rw [ha]
                push_cast
                ring
              have hfl : ⌊(D : ℚ) / 2 ^ 1⌋ = a := by
                rw [hq, Int.floor_eq_iff]
                constructor <;> linarith
              rw [hfl]
              by_contra hne
              have hev : a % 2 = 0 := by omega
              rw [hq, roundHalfEven_tie a hev, ← hq, hfl] at hm
              omega
          have hx0 : (0 : ℚ) ≤ ((⌊(D : ℚ) / 2 ^ 1⌋ + 1 : ℤ) : ℚ) * 2 ^ 1 + 1 := by
            have : (0 : ℚ) ≤ ((⌊(D : ℚ) / 2 ^ 1⌋ + 1 : ℤ) : ℚ) := by
              exact_mod_cast (by omega : (0 : ℤ) ≤ ⌊(D : ℚ) / 2 ^ 1⌋ + 1)
            positivity
          have htq1 : (2 : ℚ) ^ 52 ≤ ((⌊(D : ℚ) / 2 ^ 1⌋ + 1 : ℤ) : ℚ) := by
            exact_mod_cast (by omega : (2 : ℤ) ^ 52 ≤ ⌊(D : ℚ) / 2 ^ 1⌋ + 1)
          have htq2 : ((⌊(D : ℚ) / 2 ^ 1⌋ + 1 : ℤ) : ℚ) + 1 ≤ 2 ^ 53 := by
            exact_mod_cast (by omega : ⌊(D : ℚ) / 2 ^ 1⌋ + 1 + 1 ≤ (2 : ℤ) ^ 53)
          have hexp : exponent (((⌊(D : ℚ) / 2 ^ 1⌋ + 1 : ℤ) : ℚ) * 2 ^ 1 + 1) = 53 := by
            apply exponent_eq
            · rw [abs_of_nonneg hx0]
              norm_num at htq1 ⊢
              linarith
            · rw [abs_of_nonneg hx0]
              norm_num at htq2 ⊢
              linarith
            · norm_num
          unfold roundToDouble ulp
          rw [hexp]
          have hu1 : (2 : ℚ) ^ ((53 : ℤ) - 52) = 2 := by norm_num
          rw [hu1]
          have hq2 : (((⌊(D : ℚ) / 2 ^ 1⌋ + 1 : ℤ) : ℚ) * 2 ^ 1 + 1) / 2
              = ((⌊(D : ℚ) / 2 ^ 1⌋ + 1 : ℤ) : ℚ) + 1 / 2 := by ring
          rw [hq2, roundHalfEven_tie _ (by omega)]
          apply le_of_eq
          ring
        · have hj3 : 2 ≤ j := by omega
          have hu4 : (4 : ℚ) ≤ 2 ^ j := by
            calc (4 : ℚ) = 2 ^ 2 := by norm_num
              _ ≤ 2 ^ j := pow_le_pow_right₀ (by norm_num) hj3
          have := roundToDouble_of_small_excess (⌊(D : ℚ) / 2 ^ j⌋ + 1) (j : ℤ) (by omega) ht2
            (by omega) (x := ((⌊(D : ℚ) / 2 ^ j⌋ + 1 : ℤ) : ℚ) * 2 ^ j + 1)
            (by
              rw [zpow_natCast]
              linarith)
            (by
              rw [zpow_natCast]
              linarith)
          rw [this, zpow_natCast]

/-- The width `max - min + 1` as the script computes it, for a span that does not
round to an infinity: both the subtraction and the addition give finite
doubles, and the width is at least `1`. -/
theorem width_finite {min max : ℚ} (hle : min ≤ max) (hspan : max - min < 2 ^ 1024 - 2 ^ 970) :
    ((JSNumber.fin max).sub (.fin min)).add (.ofInt 1)
        = .fin (roundToDouble (roundToDouble (max - min) + 1))
      ∧ 0 ≤ roundToDouble (max - min)
      ∧ 1 ≤ roundToDouble (roundToDouble (max - min) + 1)
      ∧ roundToDouble (roundToDouble (max - min) + 1) ≤ 2 ^ 1024 - 2 ^ 971 := by
  have hD0 : 0 ≤ max - min := by linarith
  have hd0 := roundToDouble_nonneg hD0
  have hd1 := roundToDouble_le_max hD0 hspan
  have hbig : (2 : ℚ) ^ 1024 - 2 ^ 971 < 2 ^ 1024 := by norm_num
  have hgap : (2 : ℚ) ^ 1024 - 2 ^ 971 + 1 < 2 ^ 1024 - 2 ^ 970 := by norm_num
  have hsub : JSNumber.sub (.fin max) (.fin min) = .fin (roundToDouble (max - min)) := by
    show JSNumber.ofRat (max + -min) = _
    rw [← sub_eq_add_neg]
    unfold JSNumber.ofRat
    have hb : |roundToDouble (max - min)| < 2 ^ 1024 := by
      rw [abs_of_nonneg hd0]
      linarith
    rw [if_neg (not_le.mpr hb)]
  have hn0 : 0 ≤ roundToDouble (max - min) + 1 := by linarith
  have hn1 := roundToDouble_le_max hn0 (by linarith)
  have hn2 : 1 ≤ roundToDouble (roundToDouble (max - min) + 1) := by
    have := roundToDouble_mono (by norm_num : (0 : ℚ) ≤ 1)
      (by linarith : (1 : ℚ) ≤ roundToDouble (max - min) + 1)
    have h1 := roundToDouble_intCast 1 (by norm_num)
    rw [Int.cast_one] at h1
    rwa [h1] at this
  refine ⟨?_, hd0, hn2, hn1⟩
  rw [hsub, ofInt_eq 1 (by norm_num)]
  show JSNumber.ofRat (roundToDouble (max - min) + ((1 : ℤ) : ℚ)) = _
  rw [Int.cast_one]
  unfold JSNumber.ofRat
  have hb : |roundToDouble (roundToDouble (max - min) + 1)| < 2 ^ 1024 := by
    rw [abs_of_nonneg (by linarith)]
    linarith
  rw [if_neg (not_le.mpr hb)]

/-- For all integers `min ≤ max` that are doubles and whose span does not round
to an infinity, and every draw, `getRandomInt(min, max)` is an integer in
`[min, max]`. -/
theorem getRandomInt_in_range {r : ℚ} (hr : IsUnitDraw r) (min max : ℤ)
    (hdmin : IsDouble (min : ℚ)) (hdmax : IsDouble (max : ℚ)) (hle : min ≤ max)
    (hspan : (max : ℚ) - min < 2 ^ 1024 - 2 ^ 970) :
    ∃ k : ℤ, getRandomInt (.fin r) (.fin (min : ℚ)) (.fin (max : ℚ)) = .fin (k : ℚ)
      ∧ min ≤ k ∧ k ≤ max := by
  have hleq : (min : ℚ) ≤ max := by exact_mod_cast hle
  obtain ⟨hw, hd0, hn1, hn2⟩ := width_finite hleq hspan
  have hDcast : (max : ℚ) - min = ((max - min : ℤ) : ℚ) := by push_cast; ring
  have hr0 := hr.2.1
  have hr1 := unitDraw_le hr
  have hnpos : (0 : ℚ) < roundToDouble (roundToDouble ((max : ℚ) - min) + 1) := by linarith
  have hy0 : 0 ≤ r * roundToDouble (roundToDouble ((max : ℚ) - min) + 1) :=
    mul_nonneg hr0 (le_of_lt hnpos)
  have hyle : r * roundToDouble (roundToDouble ((max : ℚ) - min) + 1)
      ≤ roundToDouble (roundToDouble ((max : ℚ) - min) + 1) * (1 - 1 / 2 ^ 53) := by
    rw [mul_comm]
    exact mul_le_mul_of_nonneg_left hr1 (le_of_lt hnpos)
  have hyn : r * roundToDouble (roundToDouble ((max : ℚ) - min) + 1)
      ≤ roundToDouble (roundToDouble ((max : ℚ) - min) + 1) := by
    have : (0 : ℚ) ≤ roundToDouble (roundToDouble ((max : ℚ) - min) + 1) * (1 / 2 ^ 53) := by
      positivity
    linarith
  have hp0 := roundToDouble_nonneg hy0
  have hbig : (2 : ℚ) ^ 1024 - 2 ^ 971 < 2 ^ 1024 - 2 ^ 970 := by norm_num
  have hbig2 : (2 : ℚ) ^ 1024 - 2 ^ 971 < 2 ^ 1024 := by norm_num
  have hp1 := roundToDouble_le_max hy0 (by linarith)
  have hmul : JSNumber.mul (.fin r) (.fin (roundToDouble (roundToDouble ((max : ℚ) - min) + 1)))
      = .fin (roundToDouble (r * roundToDouble (roundToDouble ((max : ℚ) - min) + 1))) := by
    show JSNumber.ofRat _ = _
    unfold JSNumber.ofRat
    have hb : |roundToDouble (r * roundToDouble (roundToDouble ((max : ℚ) - min) + 1))|
        < 2 ^ 1024 := by
      rw [abs_of_nonneg hp0]
      linarith
    rw [if_neg (not_le.mpr hb)]
  have hk0 : 0 ≤ ⌊roundToDouble (r * roundToDouble (roundToDouble ((max : ℚ) - min) + 1))⌋ :=
    Int.floor_nonneg.mpr hp0
  have hk1 : ⌊roundToDouble (r * roundToDouble (roundToDouble ((max : ℚ) - min) + 1))⌋
      ≤ max - min := by
    rcases lt_or_le (max - min) (2 ^ 53) with hsmall | hlarge
    · have hd : roundToDouble ((max : ℚ) - min) = ((max - min : ℤ) : ℚ) := by
        rw [hDcast]
        exact roundToDouble_intCast _ (abs_le.mpr ⟨by omega, by omega⟩)
      have hn : roundToDouble (roundToDouble ((max : ℚ) - min) + 1)
          = ((max - min + 1 : ℤ) : ℚ) := by
        rw [hd]
        have := roundToDouble_intCast (max - min + 1) (abs_le.mpr ⟨by omega, by omega⟩)
        push_cast at this ⊢
        exact this
      rw [hn] at hyle hy0 ⊢
      have := roundToDouble_lt_int hy0 (by omega) (by omega) hyle
      have h2 := Int.floor_lt.mpr this
      omega
    · obtain ⟨j, t, ht1, ht2, hlow, hwid⟩ := width_le_grid (max - min) hlarge
      rw [← hDcast] at hlow hwid
      have hy2 : r * roundToDouble (roundToDouble ((max : ℚ) - min) + 1)
          ≤ (t : ℚ) * 2 ^ j * (1 - 1 / 2 ^ 53) := by
        have : roundToDouble (roundToDouble ((max : ℚ) - min) + 1) * (1 - 1 / 2 ^ 53)
            ≤ (t : ℚ) * 2 ^ j * (1 - 1 / 2 ^ 53) :=
          mul_le_mul_of_nonneg_right hwid (by norm_num)
        linarith
      have hp := roundToDouble_le_grid j t ht1 ht2 hy0 hy2
      have hfl := Int.floor_le
        (roundToDouble (r * roundToDouble (roundToDouble ((max : ℚ) - min) + 1)))
      have : ((⌊roundToDouble (r * roundToDouble (roundToDouble ((max : ℚ) - min) + 1))⌋ : ℤ) : ℚ)
          ≤ ((max - min : ℤ) : ℚ) := by
        rw [← hDcast]
        linarith
      exact_mod_cast this
  -- the final addition rounds an integer of `[min, max]`
  obtain ⟨w, hwv⟩ := roundToDouble_int
    (⌊roundToDouble (r * roundToDouble (roundToDouble ((max : ℚ) - min) + 1))⌋ + min)
  have hs1 : (min : ℚ)
      ≤ ((⌊roundToDouble (r * roundToDouble (roundToDouble ((max : ℚ) - min) + 1))⌋ + min : ℤ) : ℚ) := by
    exact_mod_cast (by omega : min
      ≤ ⌊roundToDouble (r * roundToDouble (roundToDouble ((max : ℚ) - min) + 1))⌋ + min)
  have hs2 : ((⌊roundToDouble (r * roundToDouble (roundToDouble ((max : ℚ) - min) + 1))⌋ + min : ℤ) : ℚ)
      ≤ (max : ℚ) := by
    exact_mod_cast (by omega :
      ⌊roundToDouble (r * roundToDouble (roundToDouble ((max : ℚ) - min) + 1))⌋ + min ≤ max)
  have hv1 := roundToDouble_monotone hs1
  have hv2 := roundToDouble_monotone hs2
  rw [hdmin.1] at hv1
  rw [hdmax.1] at hv2
  rw [hwv] at hv1 hv2
  refine ⟨w, ?_, by exact_mod_cast hv1, by exact_mod_cast hv2⟩
  unfold getRandomInt
  rw [hw, hmul]
  show JSNumber.ofRat (((⌊_⌋ : ℤ) : ℚ) + (min : ℚ)) = _
  rw [← Int.cast_add]
  unfold JSNumber.ofRat
  rw [hwv]
  have hb : |(w : ℚ)| < 2 ^ 1024 := by
    have h1 := hdmin.2
    have h2 := hdmax.2
    rw [abs_lt] at h1 h2 ⊢
    constructor <;> linarith [h1.1, h2.2]
  rw [if_neg (not_le.mpr hb)]

/-! ## The sampler on the script's bounds -/

/-- The two calls of the script, `getRandomInt(800, 1200)` and
`getRandomInt(400, 600)`, on any draw: the width is 401 resp. 201 and the
result is `floor` of the rounded product plus the lower bound. -/
theorem getRandomInt_script {r : ℚ} (hr : IsUnitDraw r) :
    getRandomInt (.fin r) (.ofInt 800) (.ofInt 1200)
        = .fin ((⌊roundToDouble (r * 401)⌋ + 800 : ℤ) : ℚ)
      ∧ 0 ≤ ⌊roundToDouble (r * 401)⌋ ∧ ⌊roundToDouble (r * 401)⌋ ≤ 400
      ∧ getRandomInt (.fin r) (.ofInt 400) (.ofInt 600)
        = .fin ((⌊roundToDouble (r * 201)⌋ + 400 : ℤ) : ℚ)
      ∧ 0 ≤ ⌊roundToDouble (r * 201)⌋ ∧ ⌊roundToDouble (r * 201)⌋ ≤ 200 := by
  have hx := getRandomInt_eval hr 800 1200 (by norm_num) (by norm_num)
    (by norm_num) (by norm_num)
  have hy := getRandomInt_eval hr 400 600 (by norm_num) (by norm_num)
    (by norm_num) (by norm_num)
  rw [ofInt_eq 800 (by norm_num), ofInt_eq 1200 (by norm_num), ofInt_eq 400 (by norm_num),
    ofInt_eq 600 (by norm_num)]
  norm_num at hx hy
  refine ⟨?_, hx.2.1, hx.2.2, ?_, hy.2.1, hy.2.2⟩
  · push_cast
    exact hx.1
  · push_cast
    exact hy.1

/-- The draw `0` yields the lower bound whenever the span `max - min` does not
round to an infinity. -/
theorem getRandomInt_zero {min max : ℚ} (hmin : IsDouble min) (hle : min ≤ max)
    (hspan : max - min < 2 ^ 1024 - 2 ^ 970) :
    getRandomInt (.fin 0) (.fin min) (.fin max) = .fin min := by
  obtain ⟨hw, _, _, _⟩ := width_finite hle hspan
  unfold getRandomInt
  rw [hw]
  show JSNumber.add (JSNumber.floor (JSNumber.ofRat (0 * _))) _ = _
  rw [zero_mul, ofRat_of_isDouble isDouble_zero]
  show JSNumber.ofRat (((⌊(0 : ℚ)⌋ : ℤ) : ℚ) + min) = _
  rw [Int.floor_zero, Int.cast_zero, zero_add]
  exact ofRat_of_isDouble hmin

/-- Once the span `max - min` rounds to `2 ^ 1024` or more it is an infinity, and
the draw `0` then yields NaN. -/
theorem getRandomInt_zero_overflow {min max : ℚ}
    (h : (2 : ℚ) ^ 1024 ≤ |roundToDouble (max - min)|) :
    getRandomInt (.fin 0) (.fin min) (.fin max) = .nan := by
  have hsub : JSNumber.sub (.fin max) (.fin min) = .inf (decide (max - min < 0)) := by
    show JSNumber.ofRat (max + -min) = _
    rw [← sub_eq_add_neg]
    unfold JSNumber.ofRat
    rw [if_pos h]
  unfold getRandomInt
  rw [hsub, ofInt_eq 1 (by norm_num)]
  rfl

/-! ## Claims about the sampler -/

/-- C1 (amended): for every random source the sampled pair consists of integers
with `800 ≤ x ≤ 1200` and `400 ≤ y ≤ 600`; more generally, for all integers
`min ≤ max` that are doubles and whose span `max - min` does not round to an
infinity (`max - min < 2 ^ 1024 - 2 ^ 970`), and every draw `r` in `[0, 1)`,
`getRandomInt(min, max)` is an integer in `[min, max]`; where the integer
arithmetic of the expression is exact (`-2 ^ 53 ≤ min`, `max ≤ 2 ^ 53`,
`max - min < 2 ^ 53`) it is `floor(r * (max - min + 1)) + min` with the product
rounded to a double. -/
theorem sampled_coordinates_within_bounds (realm : Realm) (hsrc : IsRandomSource realm.random)
    (min max : ℤ) (r : ℚ) (hr : IsUnitDraw r) (hdmin : IsDouble (min : ℚ))
    (hdmax : IsDouble (max : ℚ)) (hle : min ≤ max)
    (hspan : (max : ℚ) - min < 2 ^ 1024 - 2 ^ 970) :
    (∃ x y : ℤ, (sampleScreenCoords realm).1 = ⟨.fin (x : ℚ), .fin (y : ℚ)⟩
        ∧ 800 ≤ x ∧ x ≤ 1200 ∧ 400 ≤ y ∧ y ≤ 600)
      ∧ (∃ k : ℤ, getRandomInt (.fin r) (.fin (min : ℚ)) (.fin (max : ℚ)) = .fin (k : ℚ)
          ∧ min ≤ k ∧ k ≤ max)
      ∧ (-2 ^ 53 ≤ min → max ≤ 2 ^ 53 → max - min < 2 ^ 53 →
          getRandomInt (.fin r) (.fin (min : ℚ)) (.fin (max : ℚ))
            = .fin ((⌊roundToDouble (r * ((max - min + 1 : ℤ) : ℚ))⌋ + min : ℤ) : ℚ)) := by
  refine ⟨?_, getRandomInt_in_range hr min max hdmin hdmax hle hspan, ?_⟩
  · obtain ⟨r1, h1, hr1⟩ := hsrc realm.drawn
    obtain ⟨r2, h2, hr2⟩ := hsrc (realm.drawn + 1)
    obtain ⟨hx, hx0, hx1, _, _, _⟩ := getRandomInt_script hr1
    obtain ⟨_, _, _, hy, hy0, hy1⟩ := getRandomInt_script hr2
    refine ⟨⌊roundToDouble (r1 * 401)⌋ + 800, ⌊roundToDouble (r2 * 201)⌋ + 400, ?_,
      by omega, by omega, by omega, by omega⟩
    rw [sampleScreenCoords_eq, h1, h2, hx, hy]
  · intro hmin hmax hw
    exact (getRandomInt_eval hr min max hmin hmax hle hw).1

theorem sampled_coordinates_within_bounds_witness :
    IsRandomSource (constantSource (.fin (1 / 2))) ∧ IsUnitDraw (1 / 2)
      ∧ IsDouble ((800 : ℤ) : ℚ) ∧ IsDouble ((1200 : ℤ) : ℚ)
      ∧ ((∃ x y : ℤ,
            (sampleScreenCoords (Realm.initial (constantSource (.fin (1 / 2))))).1
              = ⟨.fin (x : ℚ), .fin (y : ℚ)⟩
            ∧ 800 ≤ x ∧ x ≤ 1200 ∧ 400 ≤ y ∧ y ≤ 600)
        ∧ (∃ k : ℤ, getRandomInt (.fin (1 / 2)) (.fin ((800 : ℤ) : ℚ)) (.fin ((1200 : ℤ) : ℚ))
            = .fin (k : ℚ)
          ∧ (800 : ℤ) ≤ k ∧ k ≤ (1200 : ℤ))
        ∧ (-2 ^ 53 ≤ (800 : ℤ) → (1200 : ℤ) ≤ 2 ^ 53 → (1200 : ℤ) - 800 < 2 ^ 53 →
            getRandomInt (.fin (1 / 2)) (.fin ((800 : ℤ) : ℚ)) (.fin ((1200 : ℤ) : ℚ))
              = .fin ((⌊roundToDouble (1 / 2 * (((1200 : ℤ) - 800 + 1 : ℤ) : ℚ))⌋ + 800 : ℤ)
                  : ℚ))) :=
  ⟨fun _ => ⟨1 / 2, rfl, isUnitDraw_half⟩, isUnitDraw_half,
    isDouble_intCast 800 (by norm_num), isDouble_intCast 1200 (by norm_num),
    sampled_coordinates_within_bounds (Realm.initial (constantSource (.fin (1 / 2))))
      (fun _ => ⟨1 / 2, rfl, isUnitDraw_half⟩) 800 1200 (1 / 2) isUnitDraw_half
      (isDouble_intCast 800 (by norm_num)) (isDouble_intCast 1200 (by norm_num))
      (by norm_num) (by norm_num)⟩

/-- C1 (counterexample): `-2 ^ 1023` and `2 ^ 1023` are integers and doubles with
`min ≤ max`, and `0` is a draw, yet `getRandomInt(min, max)` is NaN: the span
`max - min` overflows to `Infinity` and `0 * Infinity` is NaN. -/
theorem getRandomInt_not_in_range_for_huge_bounds :
    IsDouble ((-2 ^ 1023 : ℤ) : ℚ) ∧ IsDouble ((2 ^ 1023 : ℤ) : ℚ)
      ∧ (-2 ^ 1023 : ℤ) ≤ 2 ^ 1023 ∧ IsUnitDraw 0
      ∧ getRandomInt (.fin 0) (.fin ((-2 ^ 1023 : ℤ) : ℚ)) (.fin ((2 ^ 1023 : ℤ) : ℚ)) = .nan := by
  have hp : roundToDouble ((2 : ℚ) ^ 1023) = 2 ^ 1023 := by
    have := roundToDouble_dyadic 1 1023 (by norm_num) (by norm_num)
    norm_num at this ⊢
    exact this
  have hn : roundToDouble (((-2 ^ 1023 : ℤ) : ℚ)) = ((-2 ^ 1023 : ℤ) : ℚ) := by
    have := roundToDouble_dyadic (-1) 1023 (by norm_num) (by norm_num)
    norm_num at this ⊢
    exact this
  have h24 : roundToDouble ((2 : ℚ) ^ 1024) = 2 ^ 1024 := by
    have := roundToDouble_dyadic 1 1024 (by norm_num) (by norm_num)
    norm_num at this ⊢
    exact this
  refine ⟨⟨?_, ?_⟩, ⟨?_, ?_⟩, neg_le_self (by positivity), isUnitDraw_zero, ?_⟩
  · exact hn
  · norm_num [abs_of_nonneg]
  · push_cast
    exact hp
  · norm_num [abs_of_nonneg]
  · apply getRandomInt_zero_overflow
    have e : (((2 ^ 1023 : ℤ) : ℚ)) - ((-2 ^ 1023 : ℤ) : ℚ) = 2 ^ 1024 := by
      push_cast
      norm_num
    rw [e, h24, abs_of_nonneg (by positivity)]

/-- C6 (amended): for integers `min ≤ k ≤ max` in the exactly representable
range and every draw `r`, with `n = max - min + 1`: `getRandomInt(min, max) = k`
exactly when the rounded product `r * n` lies in `[k - min, k - min + 1)`; this
is the case whenever `k - min ≤ r * n ≤ (k - min + 1) * (1 - 2 ^ (-53))`, and it
implies `r * n < k - min + 1` and, for `k > min`,
`(k - min) * (1 - 2 ^ (-53)) < r * n`.  So the draws that give `k` form an
interval whose ends are `(k - min) / n` and `(k - min + 1) / n` up to a relative
rounding error of `2 ^ (-53)`, and `max` is given only by draws with
`r * n > (max - min) * (1 - 2 ^ (-53))`. -/
theorem getRandomInt_eq_iff_rounded_product (min max k : ℤ) (r : ℚ) (hr : IsUnitDraw r)
    (hmin : -2 ^ 53 ≤ min) (hmax : max ≤ 2 ^ 53) (hw : max - min < 2 ^ 53)
    (hk1 : min ≤ k) (hk2 : k ≤ max) :
    (getRandomInt (.fin r) (.fin (min : ℚ)) (.fin (max : ℚ)) = .fin (k : ℚ)
        ↔ ((k - min : ℤ) : ℚ) ≤ roundToDouble (r * ((max - min + 1 : ℤ) : ℚ))
          ∧ roundToDouble (r * ((max - min + 1 : ℤ) : ℚ)) < ((k - min + 1 : ℤ) : ℚ))
      ∧ (((k - min : ℤ) : ℚ) ≤ r * ((max - min + 1 : ℤ) : ℚ)
          → r * ((max - min + 1 : ℤ) : ℚ) ≤ ((k - min + 1 : ℤ) : ℚ) * (1 - 1 / 2 ^ 53)
          → getRandomInt (.fin r) (.fin (min : ℚ)) (.fin (max : ℚ)) = .fin (k : ℚ))
      ∧ (getRandomInt (.fin r) (.fin (min : ℚ)) (.fin (max : ℚ)) = .fin (k : ℚ)
          → r * ((max - min + 1 : ℤ) : ℚ) < ((k - min + 1 : ℤ) : ℚ)
            ∧ (min < k
              → ((k - min : ℤ) : ℚ) * (1 - 1 / 2 ^ 53) < r * ((max - min + 1 : ℤ) : ℚ))) := by
  have hle : min ≤ max := le_trans hk1 hk2
  obtain ⟨he, hf0, hf1⟩ := getRandomInt_eval hr min max hmin hmax hle hw
  have hn : (0 : ℚ) < ((max - min + 1 : ℤ) : ℚ) := by exact_mod_cast (by omega : (0 : ℤ) < max - min + 1)
  have hrn : 0 ≤ r * ((max - min + 1 : ℤ) : ℚ) := mul_nonneg hr.2.1 (le_of_lt hn)
  have hiff : getRandomInt (.fin r) (.fin (min : ℚ)) (.fin (max : ℚ)) = .fin (k : ℚ)
      ↔ ((k - min : ℤ) : ℚ) ≤ roundToDouble (r * ((max - min + 1 : ℤ) : ℚ))
        ∧ roundToDouble (r * ((max - min + 1 : ℤ) : ℚ)) < ((k - min + 1 : ℤ) : ℚ) := by
    rw [he]
    constructor
    · intro h
      have h2 : ((⌊roundToDouble (r * ((max - min + 1 : ℤ) : ℚ))⌋ + min : ℤ) : ℚ) = (k : ℚ) := by
        injection h
      have h3 : ⌊roundToDouble (r * ((max - min + 1 : ℤ) : ℚ))⌋ = k - min := by
        have : ⌊roundToDouble (r * ((max - min + 1 : ℤ) : ℚ))⌋ + min = k := by exact_mod_cast h2
        omega
      have h4 := Int.floor_eq_iff.mp h3
      refine ⟨h4.1, ?_⟩
      push_cast
      push_cast at h4
      exact h4.2
    · rintro ⟨h1, h2⟩
      have h3 : ⌊roundToDouble (r * ((max - min + 1 : ℤ) : ℚ))⌋ = k - min := by
        rw [Int.floor_eq_iff]
        refine ⟨h1, ?_⟩
        push_cast
        push_cast at h2
        exact h2
      rw [h3]
      congr 1
      push_cast
      ring
  refine ⟨hiff, ?_, ?_⟩
  · intro h1 h2
    rw [hiff]
    exact ⟨int_le_roundToDouble (by omega) (by omega) h1,
      roundToDouble_lt_int hrn (by omega) (by omega) h2⟩
  · intro h
    obtain ⟨h1, h2⟩ := hiff.mp h
    constructor
    · by_contra hc
      have := int_le_roundToDouble (K := k - min + 1) (by omega) (by omega) (not_lt.mp hc)
      linarith
    · intro hlt
      by_contra hc
      have := roundToDouble_lt_int (K := k - min) hrn (by omega) (by omega) (not_lt.mp hc)
      linarith

theorem getRandomInt_eq_iff_rounded_product_witness :
    IsUnitDraw (1 / 2)
      ∧ ((getRandomInt (.fin (1 / 2)) (.fin ((800 : ℤ) : ℚ)) (.fin ((1200 : ℤ) : ℚ))
            = .fin ((1000 : ℤ) : ℚ)
          ↔ (((1000 : ℤ) - 800 : ℤ) : ℚ) ≤ roundToDouble (1 / 2 * (((1200 : ℤ) - 800 + 1 : ℤ) : ℚ))
            ∧ roundToDouble (1 / 2 * (((1200 : ℤ) - 800 + 1 : ℤ) : ℚ))
              < (((1000 : ℤ) - 800 + 1 : ℤ) : ℚ))
        ∧ ((((1000 : ℤ) - 800 : ℤ) : ℚ) ≤ 1 / 2 * (((1200 : ℤ) - 800 + 1 : ℤ) : ℚ)
            → 1 / 2 * (((1200 : ℤ) - 800 + 1 : ℤ) : ℚ)
              ≤ (((1000 : ℤ) - 800 + 1 : ℤ) : ℚ) * (1 - 1 / 2 ^ 53)
            → getRandomInt (.fin (1 / 2)) (.fin ((800 : ℤ) : ℚ)) (.fin ((1200 : ℤ) : ℚ))
              = .fin ((1000 : ℤ) : ℚ))
        ∧ (getRandomInt (.fin (1 / 2)) (.fin ((800 : ℤ) : ℚ)) (.fin ((1200 : ℤ) : ℚ))
            = .fin ((1000 : ℤ) : ℚ)
          → 1 / 2 * (((1200 : ℤ) - 800 + 1 : ℤ) : ℚ) < (((1000 : ℤ) - 800 + 1 : ℤ) : ℚ)
            ∧ ((800 : ℤ) < 1000
              → (((1000 : ℤ) - 800 : ℤ) : ℚ) * (1 - 1 / 2 ^ 53)
                < 1 / 2 * (((1200 : ℤ) - 800 + 1 : ℤ) : ℚ)))) :=
  ⟨isUnitDraw_half,
    getRandomInt_eq_iff_rounded_product 800 1200 1000 (1 / 2) isUnitDraw_half
      (by norm_num) (by norm_num) (by norm_num) (by norm_num) (by norm_num)⟩

/-- C6 (counterexample): the draw `8984737411212959 / 2 ^ 53` lies strictly below
`400 / 401`, yet `getRandomInt(800, 1200)` returns `1200` on it: the product
`r * 401` is less than half a spacing below `400` and rounds up to `400`. -/
theorem draw_below_threshold_yields_max :
    IsUnitDraw (8984737411212959 / 2 ^ 53)
      ∧ (8984737411212959 / 2 ^ 53 : ℚ) < 400 / 401
      ∧ getRandomInt (.fin (8984737411212959 / 2 ^ 53)) (.ofInt 800) (.ofInt 1200)
        = .fin 1200 := by
  have hr : IsUnitDraw (8984737411212959 / 2 ^ 53) := by
    have := isUnitDraw_of_nat 8984737411212959 (by norm_num)
    simpa using this
  refine ⟨hr, by norm_num, ?_⟩
  obtain ⟨hx, _, hx1, _⟩ := getRandomInt_script hr
  have hexp : exponent (8984737411212959 / 2 ^ 53 * 401 : ℚ) = 8 := by
    apply exponent_eq
    · rw [abs_of_nonneg (by norm_num)]
      norm_num
    · rw [abs_of_nonneg (by norm_num)]
      norm_num
    · norm_num
  have hval : roundToDouble (8984737411212959 / 2 ^ 53 * 401) = 400 := by
    have := roundToDouble_eq_of_close (x := 8984737411212959 / 2 ^ 53 * 401) (e := 8)
      (n := 400 * 2 ^ 44) hexp (by norm_num) (by norm_num)
    rw [this]
    norm_num
  rw [hx, hval]
  norm_num

/-- C7 (amended): a random source that returns `0` for both axes gives exactly
`{x: 800, y: 400}`; in general, for all integers `min ≤ max` that are doubles
and whose span `max - min` does not round to an infinity
(`max - min < 2 ^ 1024 - 2 ^ 970`), `getRandomInt(min, max)` with draw `0`
equals `min`. -/
theorem zero_draw_yields_lower_bound (realm : Realm)
    (h0 : realm.random realm.drawn = .fin 0) (h1 : realm.random (realm.drawn + 1) = .fin 0)
    (min max : ℤ) (hmin : IsDouble (min : ℚ)) (hle : min ≤ max)
    (hspan : (max : ℚ) - min < 2 ^ 1024 - 2 ^ 970) :
    (sampleScreenCoords realm).1 = ⟨.fin 800, .fin 400⟩
      ∧ getRandomInt (.fin 0) (.fin (min : ℚ)) (.fin (max : ℚ)) = .fin (min : ℚ) := by
  constructor
  · obtain ⟨hx, _, _, hy, _, _⟩ := getRandomInt_script isUnitDraw_zero
    rw [sampleScreenCoords_eq, h0, h1, hx, hy]
    simp [roundToDouble_zero]
  · exact getRandomInt_zero hmin (by exact_mod_cast hle) hspan

theorem zero_draw_yields_lower_bound_witness :
    (Realm.initial (constantSource (.fin 0))).random (Realm.initial (constantSource (.fin 0))).drawn
        = .fin 0
      ∧ IsDouble ((-5 : ℤ) : ℚ) ∧ (-5 : ℤ) ≤ 7
      ∧ ((sampleScreenCoords (Realm.initial (constantSource (.fin 0)))).1 = ⟨.fin 800, .fin 400⟩
        ∧ getRandomInt (.fin 0) (.fin ((-5 : ℤ) : ℚ)) (.fin ((7 : ℤ) : ℚ))
          = .fin ((-5 : ℤ) : ℚ)) :=
  ⟨rfl, isDouble_intCast (-5) (by norm_num), by norm_num,
    zero_draw_yields_lower_bound (Realm.initial (constantSource (.fin 0))) rfl rfl (-5) 7
      (isDouble_intCast (-5) (by norm_num)) (by norm_num)
      (by norm_num)⟩

/-- C7 (counterexample): with `max = 2 ^ 1024 - 2 ^ 971` (the largest double, an
integer) and `min = -max`, the draw `0` gives NaN instead of `min`: `max - min`
is `Infinity`. -/
theorem zero_draw_on_largest_bounds_is_nan :
    IsDouble ((-(2 ^ 1024 - 2 ^ 971) : ℤ) : ℚ) ∧ IsDouble ((2 ^ 1024 - 2 ^ 971 : ℤ) : ℚ)
      ∧ (-(2 ^ 1024 - 2 ^ 971) : ℤ) ≤ 2 ^ 1024 - 2 ^ 971 ∧ IsUnitDraw 0
      ∧ getRandomInt (.fin 0) (.fin ((-(2 ^ 1024 - 2 ^ 971) : ℤ) : ℚ))
          (.fin ((2 ^ 1024 - 2 ^ 971 : ℤ) : ℚ)) = .nan := by
  have e1 : (((2 ^ 1024 - 2 ^ 971 : ℤ) : ℚ)) = ((2 ^ 53 - 1 : ℤ) : ℚ) * 2 ^ (971 : ℤ) := by
    norm_num
  have e2 : (((-(2 ^ 1024 - 2 ^ 971) : ℤ) : ℚ)) = ((-(2 ^ 53 - 1) : ℤ) : ℚ) * 2 ^ (971 : ℤ) := by
    norm_num
  have e3 : (((2 ^ 1024 - 2 ^ 971 : ℤ) : ℚ)) - ((-(2 ^ 1024 - 2 ^ 971) : ℤ) : ℚ)
      = ((2 ^ 53 - 1 : ℤ) : ℚ) * 2 ^ (972 : ℤ) := by
    norm_num
  refine ⟨⟨?_, ?_⟩, ⟨?_, ?_⟩, by norm_num, isUnitDraw_zero, ?_⟩
  · rw [e2]
    exact roundToDouble_dyadic _ 971 (by norm_num) (by norm_num)
  · norm_num [abs_of_nonneg]
  · rw [e1]
    exact roundToDouble_dyadic _ 971 (by norm_num) (by norm_num)
  · norm_num [abs_of_nonneg]
  · apply getRandomInt_zero_overflow
    rw [e3, roundToDouble_dyadic _ 972 (by norm_num) (by norm_num)]
    norm_num [abs_of_nonneg]

/-- C8: a random source that returns the double `0.999999` for both axes gives
exactly `{x: 1200, y: 600}`: the widths are `1200 - 800 + 1 = 401` and
`600 - 400 + 1 = 201`, `floor(0.999999 * 401)` is `400` and
`floor(0.999999 * 201)` is `200`. -/
theorem near_one_draw_yields_upper_bounds (realm : Realm)
    (h0 : realm.random realm.drawn = .ofRat (999999 / 1000000))
    (h1 : realm.random (realm.drawn + 1) = .ofRat (999999 / 1000000)) :
    (sampleScreenCoords realm).1 = ⟨.fin 1200, .fin 600⟩
      ∧ ((JSNumber.ofInt 1200).sub (.ofInt 800)).add (.ofInt 1) = .fin 401
      ∧ ((JSNumber.ofInt 600).sub (.ofInt 400)).add (.ofInt 1) = .fin 201
      ∧ JSNumber.floor ((JSNumber.ofRat (999999 / 1000000)).mul (.fin 401)) = .fin 400
      ∧ JSNumber.floor ((JSNumber.ofRat (999999 / 1000000)).mul (.fin 201)) = .fin 200
      ∧ (JSNumber.fin 400).add (.ofInt 800) = .fin 1200
      ∧ (JSNumber.fin 200).add (.ofInt 400) = .fin 600 := by
  have hr := isUnitDraw_decimal
  have hge : (999 / 1000 : ℚ) ≤ roundToDouble (999999 / 1000000) := by
    rw [roundToDouble_decimal]
    norm_num
  have hnn := hr.2.1
  obtain ⟨hx, _, hx1, hy, _, hy1⟩ := getRandomInt_script hr
  have hfx : ⌊roundToDouble (roundToDouble (999999 / 1000000) * 401)⌋ = 400 := by
    apply le_antisymm hx1
    rw [Int.le_floor]
    exact int_le_roundToDouble (K := 400) (by norm_num) (by norm_num)
      (by push_cast; linarith)
  have hfy : ⌊roundToDouble (roundToDouble (999999 / 1000000) * 201)⌋ = 200 := by
    apply le_antisymm hy1
    rw [Int.le_floor]
    exact int_le_roundToDouble (K := 200) (by norm_num) (by norm_num)
      (by push_cast; linarith)
  have hmx := (mul_draw_int hr (n := 401) (by norm_num) (by norm_num)).1
  have hmy := (mul_draw_int hr (n := 201) (by norm_num) (by norm_num)).1
  have i800 := ofInt_eq 800 (by norm_num)
  have i1200 := ofInt_eq 1200 (by norm_num)
  have i400 := ofInt_eq 400 (by norm_num)
  have i600 := ofInt_eq 600 (by norm_num)
  have i1 := ofInt_eq 1 (by norm_num)
  refine ⟨?_, ?_, ?_, ?_, ?_, ?_, ?_⟩
  · rw [sampleScreenCoords_eq, h0, h1, ofRat_decimal, hx, hy, hfx, hfy]
    norm_num
  · rw [i1200, i800, i1, sub_fin_int 1200 800 (by norm_num), add_fin_int _ 1 (by norm_num)]
    norm_num
  · rw [i600, i400, i1, sub_fin_int 600 400 (by norm_num), add_fin_int _ 1 (by norm_num)]
    norm_num
  · rw [ofRat_decimal]
    have := hmx
    norm_num at this
    rw [this]
    show JSNumber.fin _ = _
    rw [hfx]
    norm_num
  · rw [ofRat_decimal]
    have := hmy
    norm_num at this
    rw [this]
    show JSNumber.fin _ = _
    rw [hfy]
    norm_num
  · rw [i800]
    have := add_fin_int 400 800 (by norm_num)
    norm_num at this
    exact this
  · rw [i400]
    have := add_fin_int 200 400 (by norm_num)
    norm_num at this
    exact this

theorem near_one_draw_yields_upper_bounds_witness :
    (Realm.initial (constantSource (.ofRat (999999 / 1000000)))).random
        (Realm.initial (constantSource (.ofRat (999999 / 1000000)))).drawn
        = .ofRat (999999 / 1000000)
      ∧ ((sampleScreenCoords (Realm.initial (constantSource (.ofRat (999999 / 1000000))))).1
          = ⟨.fin 1200, .fin 600⟩
        ∧ ((JSNumber.ofInt 1200).sub (.ofInt 800)).add (.ofInt 1) = .fin 401
        ∧ ((JSNumber.ofInt 600).sub (.ofInt 400)).add (.ofInt 1) = .fin 201
        ∧ JSNumber.floor ((JSNumber.ofRat (999999 / 1000000)).mul (.fin 401)) = .fin 400
        ∧ JSNumber.floor ((JSNumber.ofRat (999999 / 1000000)).mul (.fin 201)) = .fin 200
        ∧ (JSNumber.fin 400).add (.ofInt 800) = .fin 1200
        ∧ (JSNumber.fin 200).add (.ofInt 400) = .fin 600) :=
  ⟨rfl, near_one_draw_yields_upper_bounds
    (Realm.initial (constantSource (.ofRat (999999 / 1000000)))) rfl rfl⟩

/-! ## Claims about the override -/

/-- C2: after the install step has succeeded with coordinate `c`, every mouse
event reads `c.x` under `screenX` and `c.y` under `screenY`, whatever values its
constructor (or the platform, or the event it was copied from) put into its
slots: the installed value takes precedence. -/
theorem installed_pair_overrides_constructor (realm realm1 : Realm) (c : ScreenCoords)
    (h : install c realm = (none, realm1)) (x y : JSNumber) (e : MouseEvent) :
    getProperty realm1.prototype (MouseEvent.create x y) .screenX = .number c.x
      ∧ getProperty realm1.prototype (MouseEvent.create x y) .screenY = .number c.y
      ∧ getProperty realm1.prototype e.clone .screenX = .number c.x
      ∧ getProperty realm1.prototype e.clone .screenY = .number c.y := by
  obtain ⟨hi, _⟩ := install_ok h
  obtain ⟨w1, e1, c1, hx⟩ := hi .screenX
  obtain ⟨w2, e2, c2, hy⟩ := hi .screenY
  exact ⟨getProperty_of_data (create_own x y) hx, getProperty_of_data (create_own x y) hy,
    getProperty_of_data (clone_own e) hx, getProperty_of_data (clone_own e) hy⟩

theorem installed_pair_overrides_constructor_witness :
    (install ⟨.fin 1000, .fin 500⟩ (Realm.initial (constantSource (.fin 0)))).1 = none
      ∧ getProperty (install ⟨.fin 1000, .fin 500⟩
            (Realm.initial (constantSource (.fin 0)))).2.prototype
          (MouseEvent.create (.fin 42) (.fin 7)) .screenX = .number (.fin 1000)
      ∧ getProperty (install ⟨.fin 1000, .fin 500⟩
            (Realm.initial (constantSource (.fin 0)))).2.prototype
          (MouseEvent.create (.fin 42) (.fin 7)) .screenY = .number (.fin 500)
      ∧ getProperty (install ⟨.fin 1000, .fin 500⟩
            (Realm.initial (constantSource (.fin 0)))).2.prototype
          (MouseEvent.clone ⟨.fin 3, .fin 4, ⟨none, none⟩⟩) .screenX = .number (.fin 1000)
      ∧ getProperty (install ⟨.fin 1000, .fin 500⟩
            (Realm.initial (constantSource (.fin 0)))).2.prototype
          (MouseEvent.clone ⟨.fin 3, .fin 4, ⟨none, none⟩⟩) .screenY = .number (.fin 500) :=
  ⟨rfl, installed_pair_overrides_constructor (Realm.initial (constantSource (.fin 0)))
    (install ⟨.fin 1000, .fin 500⟩ (Realm.initial (constantSource (.fin 0)))).2
    ⟨.fin 1000, .fin 500⟩ rfl (.fin 42) (.fin 7) ⟨.fin 3, .fin 4, ⟨none, none⟩⟩⟩

/-- C3: within one context the pair is sampled once, when the script is
evaluated (two draws), and every later read returns it: for every random
source, however many mouse events are created afterwards and however often they
are read, each read of `screenX` returns the sampled `x` and each read of
`screenY` the sampled `y`; creating and reading events draws nothing from the
random source and leaves the installed properties as they are, and a single
read never changes the context. -/
theorem reads_return_the_sampled_pair (realm realm1 : Realm)
    (h : evalScript realm = (none, realm1)) (actions : List Action)
    (hobs : ∀ a ∈ actions, a.isObservation = true) :
    realm1.drawn = realm.drawn + 2
      ∧ ((Page.start realm1).run actions).realm.drawn = realm1.drawn
      ∧ ((Page.start realm1).run actions).realm.random = realm.random
      ∧ ((Page.start realm1).run actions).realm.prototype = realm1.prototype
      ∧ (∀ o ∈ ((Page.start realm1).run actions).observed,
          o.2 = .number ((sampleScreenCoords realm).1.get o.1))
      ∧ ∀ (p : Page) (i : ℕ) (k : Key), (p.step (.read i k)).realm = p.realm := by
  obtain ⟨hi, hrnd, hdr, _⟩ := evalScript_ok h
  obtain ⟨hrealm, hcons⟩ := run_observations (sampleScreenCoords realm).1 actions
    (Page.start realm1) hi (start_consistent _ realm1) hobs
  have hs : (Page.start realm1).realm = realm1 := rfl
  rw [hs] at hrealm
  refine ⟨hdr, by rw [hrealm], by rw [hrealm, hrnd], by rw [hrealm], hcons.2, step_read_realm⟩

theorem reads_return_the_sampled_pair_witness :
    (evalScript (Realm.initial (constantSource (.fin 0)))).1 = none
      ∧ ((Page.start (evalScript (Realm.initial (constantSource (.fin 0)))).2).run
          [.construct (.fin 1) (.fin 2), .construct (.fin 3) (.fin 4), .construct (.fin 42) (.fin 5),
            .read 0 .screenX, .read 0 .screenY, .read 1 .screenX, .read 1 .screenY,
            .read 2 .screenX, .read 2 .screenY, .read 0 .screenX]).observed.length = 7
      ∧ ((evalScript (Realm.initial (constantSource (.fin 0)))).2.drawn
          = (Realm.initial (constantSource (.fin 0))).drawn + 2
        ∧ ((Page.start (evalScript (Realm.initial (constantSource (.fin 0)))).2).run
            [.construct (.fin 1) (.fin 2), .construct (.fin 3) (.fin 4),
              .construct (.fin 42) (.fin 5),
              .read 0 .screenX, .read 0 .screenY, .read 1 .screenX, .read 1 .screenY,
              .read 2 .screenX, .read 2 .screenY, .read 0 .screenX]).realm.drawn
          = (evalScript (Realm.initial (constantSource (.fin 0)))).2.drawn
        ∧ ((Page.start (evalScript (Realm.initial (constantSource (.fin 0)))).2).run
            [.construct (.fin 1) (.fin 2), .construct (.fin 3) (.fin 4),
              .construct (.fin 42) (.fin 5),
              .read 0 .screenX, .read 0 .screenY, .read 1 .screenX, .read 1 .screenY,
              .read 2 .screenX, .read 2 .screenY, .read 0 .screenX]).realm.random
          = (Realm.initial (constantSource (.fin 0))).random
        ∧ ((Page.start (evalScript (Realm.initial (constantSource (.fin 0)))).2).run
            [.construct (.fin 1) (.fin 2), .construct (.fin 3) (.fin 4),
              .construct (.fin 42) (.fin 5),
              .read 0 .screenX, .read 0 .screenY, .read 1 .screenX, .read 1 .screenY,
              .read 2 .screenX, .read 2 .screenY, .read 0 .screenX]).realm.prototype
          = (evalScript (Realm.initial (constantSource (.fin 0)))).2.prototype
        ∧ (∀ o ∈ ((Page.start (evalScript (Realm.initial (constantSource (.fin 0)))).2).run
            [.construct (.fin 1) (.fin 2), .construct (.fin 3) (.fin 4),
              .construct (.fin 42) (.fin 5),
              .read 0 .screenX, .read 0 .screenY, .read 1 .screenX, .read 1 .screenY,
              .read 2 .screenX, .read 2 .screenY, .read 0 .screenX]).observed,
            o.2 = .number
              ((sampleScreenCoords (Realm.initial (constantSource (.fin 0)))).1.get o.1))
        ∧ ∀ (p : Page) (i : ℕ) (k : Key), (p.step (.read i k)).realm = p.realm) :=
  ⟨rfl, rfl,
    reads_return_the_sampled_pair (Realm.initial (constantSource (.fin 0)))
      (evalScript (Realm.initial (constantSource (.fin 0)))).2 rfl _ (by decide)⟩

/-- The install step on non-configurable, non-writable data properties: nothing
changes, and the step throws unless the pair equals the values in place. -/
theorem install_on_locked_table (realm : Realm) (vx vy : JSValue) (ex ey : Bool)
    (hx : realm.prototype.screenX = some (.data vx false ex false))
    (hy : realm.prototype.screenY = some (.data vy false ey false)) (c2 : ScreenCoords) :
    (install c2 realm).2 = realm
      ∧ ((install c2 realm).1 = some .typeError ↔ ¬(.number c2.x = vx ∧ .number c2.y = vy))
      ∧ ((install c2 realm).1 = none ↔ (.number c2.x = vx ∧ .number c2.y = vy)) := by
  obtain ⟨random, drawn, declared, ⟨sx, sy⟩⟩ := realm
  simp only at hx hy
  subst hx hy
  rw [install_eq]
  by_cases h1 : JSValue.number c2.x = vx
  · by_cases h2 : JSValue.number c2.y = vy
    · subst h1 h2
      simp [validateAndApply, rejects, applyDescriptor, PropertyDescriptor.ofValue,
        PropertyDescriptor.isGeneric, Property.configurable]
    · subst h1
      simp [validateAndApply, rejects, applyDescriptor, PropertyDescriptor.ofValue,
        PropertyDescriptor.isGeneric, Property.configurable, h2]
  · simp [validateAndApply, rejects, applyDescriptor, PropertyDescriptor.ofValue,
      PropertyDescriptor.isGeneric, Property.configurable, h1]

/-- C4 (amended): if the install step is run again in a context where `screenX`
and `screenY` of `MouseEvent.prototype` are non-configurable, non-writable data
properties, it raises a `TypeError` exactly when the second sampled pair differs
from the values in place; when the second pair equals them the step completes
normally.  Either way the context is unchanged, so `screenX` and `screenY` still
read as set by the first installation. -/
theorem reinstall_on_locked_properties (realm : Realm) (vx vy : JSValue) (ex ey : Bool)
    (hx : realm.prototype.screenX = some (.data vx false ex false))
    (hy : realm.prototype.screenY = some (.data vy false ey false)) (c2 : ScreenCoords) :
    (install c2 realm).2 = realm
      ∧ ((install c2 realm).1 = some .typeError ↔ ¬(.number c2.x = vx ∧ .number c2.y = vy))
      ∧ ((install c2 realm).1 = none ↔ (.number c2.x = vx ∧ .number c2.y = vy))
      ∧ ∀ (e : MouseEvent) (k : Key),
          getProperty (install c2 realm).2.prototype e k = getProperty realm.prototype e k := by
  have key := install_on_locked_table realm vx vy ex ey hx hy c2
  refine ⟨key.1, key.2.1, key.2.2, ?_⟩
  intro e k
  rw [key.1]

theorem reinstall_on_locked_properties_witness :
    (install ⟨.fin 1000, .fin 500⟩ (Realm.bare (constantSource (.fin 0)))).2.prototype.screenX
        = some (.data (.number (.fin 1000)) false false false)
      ∧ ((install ⟨.fin 900, .fin 500⟩
            (install ⟨.fin 1000, .fin 500⟩ (Realm.bare (constantSource (.fin 0)))).2).2
          = (install ⟨.fin 1000, .fin 500⟩ (Realm.bare (constantSource (.fin 0)))).2
        ∧ ((install ⟨.fin 900, .fin 500⟩
              (install ⟨.fin 1000, .fin 500⟩ (Realm.bare (constantSource (.fin 0)))).2).1
            = some .typeError
          ↔ ¬(JSValue.number (.fin 900) = .number (.fin 1000)
              ∧ JSValue.number (.fin 500) = .number (.fin 500)))
        ∧ ((install ⟨.fin 900, .fin 500⟩
              (install ⟨.fin 1000, .fin 500⟩ (Realm.bare (constantSource (.fin 0)))).2).1
            = none
          ↔ (JSValue.number (.fin 900) = .number (.fin 1000)
              ∧ JSValue.number (.fin 500) = .number (.fin 500)))
        ∧ ∀ (e : MouseEvent) (k : Key),
            getProperty (install ⟨.fin 900, .fin 500⟩
              (install ⟨.fin 1000, .fin 500⟩
                (Realm.bare (constantSource (.fin 0)))).2).2.prototype e k
              = getProperty (install ⟨.fin 1000, .fin 500⟩
                (Realm.bare (constantSource (.fin 0)))).2.prototype e k) :=
  ⟨rfl, reinstall_on_locked_properties
    (install ⟨.fin 1000, .fin 500⟩ (Realm.bare (constantSource (.fin 0)))).2
    (.number (.fin 1000)) (.number (.fin 500)) false false rfl rfl ⟨.fin 900, .fin 500⟩⟩

/-- C4 (counterexample): on a prototype without the two properties the install
step creates them non-configurable; running the step again with the same pair
`(1000, 500)` raises no error. -/
theorem reinstall_of_same_pair_raises_nothing :
    (install ⟨.fin 1000, .fin 500⟩ (Realm.bare (constantSource (.fin 0)))).1 = none
      ∧ (install ⟨.fin 1000, .fin 500⟩ (Realm.bare (constantSource (.fin 0)))).2.prototype
        = ⟨some (.data (.number (.fin 1000)) false false false),
            some (.data (.number (.fin 500)) false false false)⟩
      ∧ (install ⟨.fin 1000, .fin 500⟩
          (install ⟨.fin 1000, .fin 500⟩ (Realm.bare (constantSource (.fin 0)))).2).1 = none := by
  refine ⟨rfl, rfl, ?_⟩
  exact ((install_on_locked_table _ _ _ _ _ rfl rfl ⟨.fin 1000, .fin 500⟩).2.2).mpr
    ⟨rfl, rfl⟩

/-- C5 (amended): after the script has run on the platform's accessors, the
installed pair cannot be changed by assignment: for every sequence of later
steps that creates, copies and reads events and assigns to `screenX`/`screenY`
on an event or on `MouseEvent.prototype`, the context stays as the script left
it and every read returns the installed pair.  The two properties are
non-writable but still configurable, so this does not extend to a later
`Object.defineProperty` on the prototype. -/
theorem assignments_keep_the_installed_pair (realm realm1 : Realm)
    (hnat : realm.prototype = nativePrototype) (h : evalScript realm = (none, realm1))
    (actions : List Action) (hnd : ∀ a ∈ actions, a.isDefinition = false) :
    ((Page.start realm1).run actions).realm = realm1
      ∧ (∀ o ∈ ((Page.start realm1).run actions).observed,
          o.2 = .number ((sampleScreenCoords realm).1.get o.1))
      ∧ ∀ k, realm1.prototype.get k
          = some (.data (.number ((sampleScreenCoords realm).1.get k)) false true true) := by
  have hfresh := fresh_of_evalScript_ok h
  have h2 := evalScript_native hnat hfresh
  rw [h] at h2
  have hr1 := (Prod.mk.inj h2).2
  have hk : ∀ k, realm1.prototype.get k
      = some (.data (.number ((sampleScreenCoords realm).1.get k)) false true true) := by
    intro k
    rw [hr1]
    cases k <;> rfl
  have hro : InstalledReadOnly (sampleScreenCoords realm).1 realm1.prototype :=
    fun k => ⟨true, true, hk k⟩
  obtain ⟨hrealm, hcons⟩ := run_without_definitions (sampleScreenCoords realm).1 actions
    (Page.start realm1) hro (start_consistent _ realm1) hnd
  exact ⟨hrealm, hcons.2, hk⟩

theorem assignments_keep_the_installed_pair_witness :
    (Realm.initial (constantSource (.fin 0))).prototype = nativePrototype
      ∧ (evalScript (Realm.initial (constantSource (.fin 0)))).1 = none
      ∧ ((Page.start (evalScript (Realm.initial (constantSource (.fin 0)))).2).run
          [.construct (.fin 1) (.fin 2), .assignEvent 0 .screenX (.number (.fin 42)),
            .assignPrototype .screenY (.number (.fin 42)), .read 0 .screenX,
            .read 0 .screenY]).observed.length = 2
      ∧ (((Page.start (evalScript (Realm.initial (constantSource (.fin 0)))).2).run
            [.construct (.fin 1) (.fin 2), .assignEvent 0 .screenX (.number (.fin 42)),
              .assignPrototype .screenY (.number (.fin 42)), .read 0 .screenX,
              .read 0 .screenY]).realm
          = (evalScript (Realm.initial (constantSource (.fin 0)))).2
        ∧ (∀ o ∈ ((Page.start (evalScript (Realm.initial (constantSource (.fin 0)))).2).run
            [.construct (.fin 1) (.fin 2), .assignEvent 0 .screenX (.number (.fin 42)),
              .assignPrototype .screenY (.number (.fin 42)), .read 0 .screenX,
              .read 0 .screenY]).observed,
            o.2 = .number
              ((sampleScreenCoords (Realm.initial (constantSource (.fin 0)))).1.get o.1))
        ∧ ∀ k, (evalScript (Realm.initial (constantSource (.fin 0)))).2.prototype.get k
            = some (.data (.number
                ((sampleScreenCoords (Realm.initial (constantSource (.fin 0)))).1.get k))
              false true true)) :=
  ⟨rfl, rfl, rfl,
    assignments_keep_the_installed_pair (Realm.initial (constantSource (.fin 0)))
      (evalScript (Realm.initial (constantSource (.fin 0)))).2 rfl rfl _ (by decide)⟩

/-- C5 (counterexample): after the script has run (draws `0`, installed pair
`(800, 400)`), the step
`Object.defineProperty(MouseEvent.prototype, 'screenX', { value: 42 })` is
accepted, and a mouse event created afterwards reads `screenX` as `42`. -/
theorem redefinition_replaces_the_installed_pair :
    (evalScript (Realm.initial (constantSource (.fin 0)))).1 = none
      ∧ (sampleScreenCoords (Realm.initial (constantSource (.fin 0)))).1 = ⟨.fin 800, .fin 400⟩
      ∧ ((Page.start (evalScript (Realm.initial (constantSource (.fin 0)))).2).run
          [.definePrototype .screenX (.ofValue (.fin 42)), .construct (.fin 0) (.fin 0),
            .read 0 .screenX]).observed = [(.screenX, .number (.fin 42))]
      ∧ JSValue.number (.fin 42) ≠ .number (.fin 800) := by
  refine ⟨rfl, ?_, rfl, by simp⟩
  obtain ⟨hx, _, _, hy, _, _⟩ := getRandomInt_script isUnitDraw_zero
  rw [sampleScreenCoords_eq]
  show ScreenCoords.mk (getRandomInt (.fin 0) _ _) (getRandomInt (.fin 0) _ _) = _
  rw [hx, hy]
  simp [roundToDouble_zero]

/-- C9 (amended): an evaluation of the script that reaches its statements (its
`const` names `getRandomInt` and `screenCoords` are not declared yet in the
global scope, as in the first evaluation in a context) consumes exactly two
draws: `x` is computed from the first of them alone and `y` from the second
alone, in this order; the install step consumes none, whether it succeeds or
throws, and neither does a later read. -/
theorem script_consumes_two_draws (realm : Realm)
    (hfresh : scriptNames.any (fun n => realm.declared.contains n) = false) :
    (evalScript realm).2.drawn = realm.drawn + 2
      ∧ (evalScript realm).2.random = realm.random
      ∧ (sampleScreenCoords realm).2.drawn = realm.drawn + 2
      ∧ (sampleScreenCoords realm).1.x
          = getRandomInt (realm.random realm.drawn) (.ofInt 800) (.ofInt 1200)
      ∧ (sampleScreenCoords realm).1.y
          = getRandomInt (realm.random (realm.drawn + 1)) (.ofInt 400) (.ofInt 600)
      ∧ (∀ (c : ScreenCoords) (r : Realm),
          (install c r).2.drawn = r.drawn ∧ (install c r).2.random = r.random)
      ∧ ∀ (p : Page) (i : ℕ) (k : Key), (p.step (.read i k)).realm = p.realm := by
  rw [evalScript_fresh hfresh]
  obtain ⟨h1, h2⟩ := runStatements_drawn { realm with declared := scriptNames ++ realm.declared }
  refine ⟨h1, h2, rfl, rfl, rfl, ?_, step_read_realm⟩
  intro c r
  obtain ⟨h3, h4, _⟩ := install_frame c r
  exact ⟨h4, h3⟩

theorem script_consumes_two_draws_witness :
    scriptNames.any (fun n => (Realm.initial (constantSource (.fin 0))).declared.contains n)
        = false
      ∧ ((evalScript (Realm.initial (constantSource (.fin 0)))).2.drawn
          = (Realm.initial (constantSource (.fin 0))).drawn + 2
        ∧ (evalScript (Realm.initial (constantSource (.fin 0)))).2.random
          = (Realm.initial (constantSource (.fin 0))).random
        ∧ (sampleScreenCoords (Realm.initial (constantSource (.fin 0)))).2.drawn
          = (Realm.initial (constantSource (.fin 0))).drawn + 2
        ∧ (sampleScreenCoords (Realm.initial (constantSource (.fin 0)))).1.x
          = getRandomInt ((Realm.initial (constantSource (.fin 0))).random
              (Realm.initial (constantSource (.fin 0))).drawn) (.ofInt 800) (.ofInt 1200)
        ∧ (sampleScreenCoords (Realm.initial (constantSource (.fin 0)))).1.y
          = getRandomInt ((Realm.initial (constantSource (.fin 0))).random
              ((Realm.initial (constantSource (.fin 0))).drawn + 1)) (.ofInt 400) (.ofInt 600)
        ∧ (∀ (c : ScreenCoords) (r : Realm),
            (install c r).2.drawn = r.drawn ∧ (install c r).2.random = r.random)
        ∧ ∀ (p : Page) (i : ℕ) (k : Key), (p.step (.read i k)).realm = p.realm) :=
  ⟨rfl, script_consumes_two_draws (Realm.initial (constantSource (.fin 0))) rfl⟩

/-- C9 (counterexample): the script injected twice into one context.  The first
evaluation consumes two draws; the second is rejected with a `SyntaxError`
before any statement runs and consumes no draw, so the count stays at two
instead of reaching four. -/
theorem rejected_evaluation_consumes_no_draw :
    (evalScript (Realm.initial (constantSource (.fin (1 / 2))))).1 = none
      ∧ (evalScript (Realm.initial (constantSource (.fin (1 / 2))))).2.drawn = 2
      ∧ (evalScript (evalScript (Realm.initial (constantSource (.fin (1 / 2))))).2).1
        = some .syntaxError
      ∧ (evalScript (evalScript (Realm.initial (constantSource (.fin (1 / 2))))).2).2.drawn
        = 2
      ∧ (evalScript (evalScript (Realm.initial (constantSource (.fin (1 / 2))))).2).2.drawn
        ≠ (evalScript (Realm.initial (constantSource (.fin (1 / 2))))).2.drawn + 2 := by
  have h : evalScript (evalScript (Realm.initial (constantSource (.fin (1 / 2))))).2
      = (some .syntaxError, (evalScript (Realm.initial (constantSource (.fin (1 / 2))))).2) :=
    evalScript_declared (declared_after_evalScript
      (rfl : evalScript (Realm.initial (constantSource (.fin (1 / 2)))) = (none, _)))
  have h2 : (evalScript (Realm.initial (constantSource (.fin (1 / 2))))).2.drawn = 2 := rfl
  refine ⟨rfl, h2, ?_, ?_, ?_⟩
  · rw [h]
  · rw [h]
    exact h2
  · rw [h, h2]
    decide

/-- C10 (amended): the descriptors the script installs carry only a value, so
an accepted definition keeps the `[[Configurable]]` attribute of the property it
replaces.  When the script runs on the platform's configurable accessors, the
properties it leaves are still configurable; running its statements again
raises no error and replaces the first pair with the pair sampled from the next
two draws.  A second evaluation of the script file itself in the same global
scope does not get that far: it is rejected with a `SyntaxError` because its
`const` names are already declared, consumes no draw and leaves the first pair
in place. -/
theorem second_run_replaces_pair_but_script_is_rejected (realm : Realm)
    (hnat : realm.prototype = nativePrototype)
    (hfresh : scriptNames.any (fun n => realm.declared.contains n) = false) :
    (∀ v : JSNumber, (PropertyDescriptor.ofValue v).writable = none
        ∧ (PropertyDescriptor.ofValue v).enumerable = none
        ∧ (PropertyDescriptor.ofValue v).configurable = none)
      ∧ (∀ (q : Property) (v : JSNumber), validateAndApply (some q) (.ofValue v) = none
          ∨ ∃ p, validateAndApply (some q) (.ofValue v) = some p
            ∧ p.configurable = q.configurable)
      ∧ (evalScript realm).1 = none
      ∧ (∀ k, ∃ p, (evalScript realm).2.prototype.get k = some p ∧ p.configurable = true)
      ∧ (runStatements (evalScript realm).2).1 = none
      ∧ (∀ k, (runStatements (evalScript realm).2).2.prototype.get k
          = some (.data (.number ((sampleScreenCoords (evalScript realm).2).1.get k))
              false true true))
      ∧ (sampleScreenCoords (evalScript realm).2).1
          = ⟨getRandomInt (realm.random (realm.drawn + 2)) (.ofInt 800) (.ofInt 1200),
              getRandomInt (realm.random (realm.drawn + 3)) (.ofInt 400) (.ofInt 600)⟩
      ∧ evalScript (evalScript realm).2 = (some .syntaxError, (evalScript realm).2) := by
  have hev := evalScript_native hnat hfresh
  refine ⟨fun v => ⟨rfl, rfl, rfl⟩, ?_, ?_, ?_, ?_, ?_, ?_, ?_⟩
  · intro q v
    cases hq : validateAndApply (some q) (.ofValue v) with
    | none => exact Or.inl rfl
    | some p => exact Or.inr ⟨p, rfl, (validateAndApply_ofValue hq).2 q rfl⟩
  · rw [hev]
  · intro k
    rw [hev]
    cases k
    · exact ⟨_, rfl, rfl⟩
    · exact ⟨_, rfl, rfl⟩
  · rw [hev]
    unfold runStatements
    rw [sampleScreenCoords_eq]
    simp only
    rw [install_configurable_data _ _ _ _ _ _ _ _ rfl]
  · intro k
    rw [hev]
    unfold runStatements
    rw [sampleScreenCoords_eq]
    simp only
    rw [install_configurable_data _ _ _ _ _ _ _ _ rfl]
    cases k <;> rfl
  · rw [hev]
    rfl
  · apply evalScript_declared
    rw [hev]
    simp [scriptNames]

theorem second_run_replaces_pair_but_script_is_rejected_witness :
    (Realm.initial (constantSource (.fin 0))).prototype = nativePrototype
      ∧ (evalScript (Realm.initial (constantSource (.fin 0)))).1 = none
      ∧ (runStatements (evalScript (Realm.initial (constantSource (.fin 0)))).2).1 = none
      ∧ evalScript (evalScript (Realm.initial (constantSource (.fin 0)))).2
        = (some .syntaxError, (evalScript (Realm.initial (constantSource (.fin 0)))).2) :=
  ⟨rfl,
    (second_run_replaces_pair_but_script_is_rejected
      (Realm.initial (constantSource (.fin 0))) rfl rfl).2.2.1,
    (second_run_replaces_pair_but_script_is_rejected
      (Realm.initial (constantSource (.fin 0))) rfl rfl).2.2.2.2.1,
    (second_run_replaces_pair_but_script_is_rejected
      (Realm.initial (constantSource (.fin 0))) rfl rfl).2.2.2.2.2.2.2⟩

/-- C10 (counterexample): the script evaluated in a fresh context succeeds; the
same script evaluated again in that context raises a `SyntaxError`, and the
context (the installed pair included) stays as the first evaluation left it. -/
theorem second_evaluation_raises_syntax_error :
    (evalScript (Realm.initial (constantSource (.fin 0)))).1 = none
      ∧ (evalScript (evalScript (Realm.initial (constantSource (.fin 0)))).2).1
        = some .syntaxError
      ∧ (evalScript (evalScript (Realm.initial (constantSource (.fin 0)))).2).2.prototype
        = (evalScript (Realm.initial (constantSource (.fin 0)))).2.prototype
      ∧ (evalScript (evalScript (Realm.initial (constantSource (.fin 0)))).2).2.drawn = 2 := by
  have h : evalScript (evalScript (Realm.initial (constantSource (.fin 0)))).2
      = (some .syntaxError, (evalScript (Realm.initial (constantSource (.fin 0)))).2) :=
    evalScript_declared (declared_after_evalScript
      (rfl : evalScript (Realm.initial (constantSource (.fin 0))) = (none, _)))
  refine ⟨rfl, ?_, ?_, ?_⟩
  · rw [h]
  · rw [h]
  · rw [h]
    rfl

end Turnstile
